import Mathlib

/-!
Verification development for the Kryptopoly game server (src/index.js).

The definitions below are a shallow embedding of the server's session
state machine and settlement engine: JS objects keyed by player / market
ids become association lists, JS numbers become `Int` (card values,
bids) or `ℚ` (exchange rates and settlement totals, which can become
fractional through crypto-trend coefficients and `Math.floor`-halving),
and each socket handler becomes a function from a game state and a
payload to an acknowledgment plus the successor state.  Display-only
outputs (breakdown rows, notices, broadcasts) are omitted; they do not
feed back into any state or total.
-/

namespace Kryptopoly

/-- Acknowledgment shape: `{ok:true}` or `{ok:false, code}`. -/
inductive Ack where
  | ok : Ack
  | err (code : String) : Ack
deriving DecidableEq, Repr

/-- The four crypto coin symbols. -/
inductive Coin where
  | BTC | ETH | LTC | SIA
deriving DecidableEq, Repr

/-- Game lifecycle status. -/
inductive GStatus where
  | LOBBY | IN_PROGRESS | GAME_OVER
deriving DecidableEq, Repr

/-- Current phase (`game.phase`), `none` in lobby / game over. -/
inductive Phase where
  | BIZ | CRYPTO | SETTLE
deriving DecidableEq, Repr

/-- Current step within `BIZ` (`game.bizStep`). -/
inductive BizStep where
  | ML_BID | MOVE | AUCTION_ENVELOPE | ACQUIRE
deriving DecidableEq, Repr

/-- An owned traditional-investment card (`kind:"INVESTMENT"`). -/
structure InvestCard where
  usdProduction : Int
  continent : String
  invType : String
deriving DecidableEq, Repr

/-- An owned mining-farm card (`kind:"MINING_FARM"`). -/
structure FarmCard where
  crypto : Coin
  cryptoProduction : Int
  electricityUSD : Int
deriving DecidableEq, Repr

/-- An owned expert card (`kind:"EXPERT"`): function key plus one-shot used flag. -/
structure ExpertCard where
  functionKey : String
  used : Bool
deriving DecidableEq, Repr

/-- A player's inventory (`game.inventory[pid]`). -/
structure Inventory where
  investments : List InvestCard
  miningFarms : List FarmCard
  experts : List ExpertCard
deriving DecidableEq, Repr

/-- Source `blankInventory()`. -/
def blankInventory : Inventory := ⟨[], [], []⟩

/-- The four exchange rates (`game.crypto.rates`). -/
structure Rates where
  btc : ℚ
  eth : ℚ
  ltc : ℚ
  sia : ℚ
deriving DecidableEq, Repr

def Rates.get (r : Rates) : Coin → ℚ
  | Coin.BTC => r.btc
  | Coin.ETH => r.eth
  | Coin.LTC => r.ltc
  | Coin.SIA => r.sia

/-- A global trend instance for the current year: its key and whether a
lawyer may block it (`trend.lawyer.allowed`). -/
structure GlobalTrend where
  key : String
  lawyerAllowed : Bool
deriving DecidableEq, Repr

/-- A lobbyist attack type. -/
inductive AType where
  | STEAL | SABOTAGE
deriving DecidableEq, Repr

/-- A pending lawyer choice in the audit (`pending.lawyer`). -/
inductive LawyerChoice where
  | BLOCK_TREND (trendKey : String)
  | SHIELD_LOBBY
deriving DecidableEq, Repr

/-- One pending lobbyist attack (`{type, targetPid}`). -/
structure LobbyAction where
  atype : AType
  targetPid : String
deriving DecidableEq, Repr

/-- A player's secret pending audit choices (`game.settle.pending[pid]`). -/
structure SettlePending where
  lawyer : Option LawyerChoice
  lobby : List LobbyAction
deriving DecidableEq, Repr

/-- A player's settlement entry (`game.settle.entries[pid]`);
`finalBreakdown` is display-only and omitted. -/
structure SettleEntry where
  started : Bool
  finalUsd : Option ℚ
  paid : Bool
deriving DecidableEq, Repr

/-- Default settlement entry created by `ensureSettlePlayer`. -/
def defaultSettleEntry : SettleEntry := ⟨false, none, false⟩

/-- An ML-bid entry (`game.biz.mlBids[pid]`). -/
structure MLBidEntry where
  amountUsd : Option Int
  committed : Bool
deriving DecidableEq, Repr

/-- A move entry (`game.biz.move[pid]`). -/
structure MoveEntry where
  marketId : String
  committed : Bool
deriving DecidableEq, Repr

/-- An auction entry (`game.biz.auction.entries[pid]`). -/
structure AuctionEntry where
  bidUsd : Option Int
  committed : Bool
  usedLobbyist : Bool
  finalBidUsd : Option Int
  finalCommitted : Bool
deriving DecidableEq, Repr

/-- An acquire entry (`game.biz.acquire.entries[pid]`). -/
structure AcquireEntry where
  committed : Bool
  gotCard : Bool
deriving DecidableEq, Repr

/-- A crypto entry (`game.crypto.entries[pid]`); deltas are display-only. -/
structure CryptoEntry where
  committed : Bool
deriving DecidableEq, Repr

/-- A player record (the fields the verified handlers read/write). -/
structure Player where
  playerId : String
  role : String
  marketId : Option String
deriving DecidableEq, Repr

/-- Association-list lookup (JS object property read; keys are unique). -/
def getA {β : Type} : List (String × β) → String → Option β
  | [], _ => none
  | (k', v) :: rest, k => if k' = k then some v else getA rest k

/-- Association-list write (JS object property assignment: replace the
existing key or add it). -/
def setA {β : Type} : List (String × β) → String → β → List (String × β)
  | [], k, v => [(k, v)]
  | (k', v') :: rest, k, v =>
      if k' = k then (k, v) :: rest else (k', v') :: setA rest k v

/-- The whole Game aggregate (the slice of `game` the verified
operations touch).  `globals` are the current year's global trend
instances (`game.trends.byYear[year].globals`). -/
structure Game where
  status : GStatus
  phase : Option Phase
  bizStep : Option BizStep
  year : Int
  players : List Player
  inventories : List (String × Inventory)
  globals : List GlobalTrend
  rates : Rates
  mlBids : List (String × MLBidEntry)
  move : List (String × MoveEntry)
  marketLocks : List (String × Option String)
  auctionEntries : List (String × AuctionEntry)
  lobbyistPhaseActive : Bool
  acquireEntries : List (String × AcquireEntry)
  cryptoEntries : List (String × CryptoEntry)
  settleStage : String
  settleEntries : List (String × SettleEntry)
  settlePendings : List (String × SettlePending)
deriving DecidableEq, Repr

/-- Source `game.players.map(p=>p.playerId)`. -/
def playerIds (g : Game) : List String := g.players.map (·.playerId)

/-- Source `game.inventory[pid] || blankInventory()`. -/
def invOf (g : Game) (pid : String) : Inventory :=
  (getA g.inventories pid).getD blankInventory

/-- Source `game.settle.pending[pid] || \x7b lawyer:null, lobby:[] \x7d`. -/
def pendOf (g : Game) (pid : String) : SettlePending :=
  (getA g.settlePendings pid).getD ⟨none, []⟩

/-! ## Settlement preview (`auditPreview`, src/index.js lines 1114-1187) -/

/-- Source `USD_UNIT`: cards use units where 1 == 1,000 USD. -/
def USD_UNIT : Int := 1000

/-- Source `bonusForCount(count)`: walk `BONUS_BY_THRESHOLD` ([6 → 50000,
4 → 25000, 2 → 10000]) and return the first threshold reached, else 0. -/
def bonusForCount (c : Nat) : Int :=
  if 6 ≤ c then 50000
  else if 4 ≤ c then 25000
  else if 2 ≤ c then 10000
  else 0

/-- Group the keys, and sum `bonusForCount` of each group's size (the
`byCont`/`byType` tallies and the `Object.values` loops). -/
def groupBonus (keys : List String) : Int :=
  (keys.dedup.map (fun k => bonusForCount (keys.count k))).sum

/-- Whether `trendKey` is active this year (`globals.some(t=>t.key===key)`). -/
def hasTrendKey (globals : List GlobalTrend) (k : String) : Bool :=
  globals.any (fun t => t.key == k)

/-- Source `isBlocked(key)`: the player's chosen blocked trend equals `key`. -/
def isBlockedKey (blockedTrendKey : Option String) (k : String) : Bool :=
  blockedTrendKey == some k

/-- Farm production units of one coin (the `miningUnits` tally loop). -/
def unitsFor (farms : List FarmCard) (sym : Coin) : Int :=
  farms.foldl (fun s f => if f.crypto = sym then s + f.cryptoProduction else s) 0

/-- Result of `auditPreview`: the candidate settlement total and the
highest base-production card value (used for STEAL damage). -/
structure PreviewResult where
  usd : ℚ
  maxTradBaseCardUsd : Int
deriving DecidableEq, Repr

/-- Source `auditPreview(game, pid, opts)` (src/index.js lines 1114-1187),
as a function of the data it reads: the current year's global trends,
the exchange rates, the player's inventory, and the optional
`blockedTrendKey`. -/
def auditPreview (globals : List GlobalTrend) (rates : Rates)
    (inv : Inventory) (blockedTrendKey : Option String) : PreviewResult :=
  let hasTrend := hasTrendKey globals
  let isBlocked := isBlockedKey blockedTrendKey
  let tradCards := inv.investments
  let tradBase := tradCards.foldl (fun s c => s + c.usdProduction * USD_UNIT) 0
  let antiMono := hasTrend "ANTIMONOPOLY_NO_BONUSES" && !isBlocked "ANTIMONOPOLY_NO_BONUSES"
  let regionBonus := if antiMono then 0 else groupBonus (tradCards.map (·.continent))
  let globalBonus := if antiMono then 0 else groupBonus (tradCards.map (·.invType))
  let tradBaseAdj :=
    if hasTrend "ECONOMIC_CRISIS_NO_TRAD_BASE" && !isBlocked "ECONOMIC_CRISIS_NO_TRAD_BASE"
    then 0 else tradBase
  let tradBaseAdj := if hasTrend "TRAD_INV_DOUBLE_USD" then tradBaseAdj * 2 else tradBaseAdj
  let farms := inv.miningFarms
  let units := fun sym =>
    if hasTrend "LOWER_DIFFICULTY" then unitsFor farms sym * 2 else unitsFor farms sym
  let miningValueUsd : ℚ :=
    ([Coin.BTC, Coin.ETH, Coin.LTC, Coin.SIA].map
      (fun sym => (units sym : ℚ) * rates.get sym)).sum
  let electricity := farms.foldl (fun s f => s + f.electricityUSD) 0
  let electricity :=
    if hasTrend "EXPENSIVE_ELECTRICITY" && !isBlocked "EXPENSIVE_ELECTRICITY"
    then electricity * 2 else electricity
  let usd : ℚ :=
    ((tradBaseAdj + regionBonus + globalBonus : Int) : ℚ) + miningValueUsd
      - ((electricity : Int) : ℚ)
  let maxTradBaseCardUsd :=
    tradCards.foldl (fun m c => max m (c.usdProduction * USD_UNIT)) 0
  ⟨usd, maxTradBaseCardUsd⟩

/-! ### Claim-C1 spec-side components

These transcribe the claim's wording (for refinement against
`auditPreview`), component by component. -/

/-- Spec wording: each owned investment card contributes `usdProduction`
times the 1000-USD unit scale to the base; zeroed by an active
economic-crisis trend unless blocked; doubled by a boom trend. -/
def specAdjustedTraditionalBase (globals : List GlobalTrend)
    (blockedTrendKey : Option String) (inv : Inventory) : Int :=
  let raw := (inv.investments.map (fun c => c.usdProduction * 1000)).sum
  let afterCrisis :=
    if hasTrendKey globals "ECONOMIC_CRISIS_NO_TRAD_BASE"
        && !isBlockedKey blockedTrendKey "ECONOMIC_CRISIS_NO_TRAD_BASE"
    then 0 else raw
  if hasTrendKey globals "TRAD_INV_DOUBLE_USD" then afterCrisis * 2 else afterCrisis

/-- Spec wording of the bonus staircase: group size 0-1 gives 0,
2-3 gives 10000, 4-5 gives 25000, 6 or more gives 50000. -/
def specStaircase (n : Nat) : Int :=
  if n ≤ 1 then 0
  else if n ≤ 3 then 10000
  else if n ≤ 5 then 25000
  else 50000

/-- Spec wording: per continent-group staircase bonus, zeroed by an
active antimonopoly trend unless blocked. -/
def specRegionalBonus (globals : List GlobalTrend)
    (blockedTrendKey : Option String) (inv : Inventory) : Int :=
  if hasTrendKey globals "ANTIMONOPOLY_NO_BONUSES"
      && !isBlockedKey blockedTrendKey "ANTIMONOPOLY_NO_BONUSES" then 0
  else
    let keys := inv.investments.map (·.continent)
    (keys.dedup.map (fun k => specStaircase (keys.count k))).sum

/-- Spec wording: per type-group staircase bonus, zeroed by an active
antimonopoly trend unless blocked. -/
def specGlobalBonus (globals : List GlobalTrend)
    (blockedTrendKey : Option String) (inv : Inventory) : Int :=
  if hasTrendKey globals "ANTIMONOPOLY_NO_BONUSES"
      && !isBlockedKey blockedTrendKey "ANTIMONOPOLY_NO_BONUSES" then 0
  else
    let keys := inv.investments.map (·.invType)
    (keys.dedup.map (fun k => specStaircase (keys.count k))).sum

/-- Spec wording: sum of owned farms' production units (doubled by a
lower-difficulty trend) times the current per-coin exchange rate. -/
def specMiningValue (globals : List GlobalTrend) (rates : Rates)
    (inv : Inventory) : ℚ :=
  ([Coin.BTC, Coin.ETH, Coin.LTC, Coin.SIA].map (fun sym =>
    let u := unitsFor inv.miningFarms sym
    let u := if hasTrendKey globals "LOWER_DIFFICULTY" then u * 2 else u
    (u : ℚ) * rates.get sym)).sum

/-- Spec wording: sum of owned farms' electricity costs, doubled by an
expensive-electricity trend unless blocked. -/
def specElectricityCost (globals : List GlobalTrend)
    (blockedTrendKey : Option String) (inv : Inventory) : Int :=
  let raw := (inv.miningFarms.map (·.electricityUSD)).sum
  if hasTrendKey globals "EXPENSIVE_ELECTRICITY"
      && !isBlockedKey blockedTrendKey "EXPENSIVE_ELECTRICITY"
  then raw * 2 else raw

/-! ## Final audit computation (`computeAuditFinalForAll`,
src/index.js lines 1189-1274) -/

/-- The `blockedTrendKey` derived from a pending lawyer choice
(`pending.lawyer.mode==="BLOCK_TREND" ? pending.lawyer.trendKey : null`). -/
def blockedKeyOf (p : SettlePending) : Option String :=
  match p.lawyer with
  | some (LawyerChoice.BLOCK_TREND k) => some k
  | _ => none

/-- Source `base[pid] = auditPreview(game, pid, \x7b blockedTrendKey \x7d)`. -/
def baseOf (g : Game) (pid : String) : PreviewResult :=
  auditPreview g.globals g.rates (invOf g pid) (blockedKeyOf (pendOf g pid))

/-- One collected attack: the attacker and the attack type. -/
structure Attack where
  fromPid : String
  atype : AType
deriving DecidableEq, Repr

/-- Source `attacksByTarget[t]`: for each attacker (in player order) append the
attacks in that attacker's pending lobby list aimed at `t`. -/
def attacksOn (g : Game) (t : String) : List Attack :=
  ((playerIds g).map (fun fp =>
    ((pendOf g fp).lobby.map (fun a =>
      if a.targetPid = t then [Attack.mk fp a.atype] else [])).flatten)).flatten

/-- The damage estimate for one incoming attack, measured against the
target's base preview: a STEAL would take the highest base-production
card value; a SABOTAGE would take `|base − floor(base·0.5)|`. -/
def attackDamage (baseUsd : ℚ) (maxCard : Int) (a : Attack) : ℚ :=
  match a.atype with
  | AType.STEAL => (maxCard : ℚ)
  | AType.SABOTAGE => |baseUsd - ((⌊baseUsd * (1/2)⌋ : ℤ) : ℚ)|

/-- The `bestIdx/bestDmg` scan: keep the first index whose damage
strictly exceeds the best seen so far (initially `-1`). -/
def bestLoop : List ℚ → Nat → Int → ℚ → Int
  | [], _, bi, _ => bi
  | d :: rest, i, bi, bd =>
      if bd < d then bestLoop rest (i + 1) (Int.ofNat i) d
      else bestLoop rest (i + 1) bi bd

/-- Source `bestIdx` over a damage list, starting from `bestIdx=-1, bestDmg=-1`. -/
def bestAttack (dmgs : List ℚ) : Int := bestLoop dmgs 0 (-1) (-1)

/-- The damage list for all attacks aimed at `t`. -/
def damagesOn (g : Game) (t : String) : List ℚ :=
  (attacksOn g t).map
    (attackDamage (baseOf g t).usd (baseOf g t).maxTradBaseCardUsd)

/-- Source `blockedAttack[t]`: for a target whose locked-in lawyer choice is the
shield, the index of the single incoming attack with the largest damage
estimate; absent otherwise. -/
def blockedIdxOf (g : Game) (t : String) : Option Nat :=
  if (pendOf g t).lawyer = some LawyerChoice.SHIELD_LOBBY then
    if attacksOn g t = [] then none
    else
      let bi := bestAttack (damagesOn g t)
      if 0 ≤ bi then some bi.toNat else none
  else none

/-- Pointwise update of the running-totals map (`finalUsd[k] = v`). -/
def updF (f : String → ℚ) (k : String) (v : ℚ) : String → ℚ :=
  fun p => if p = k then v else f p

/-- One iteration of the STEAL loop for target `t`: skip the blocked
index, skip non-STEAL attacks, skip when the target's highest card value
`x` is ≤ 0; otherwise move `x` from target to attacker. -/
def stealStep (x : Int) (bl : Option Nat) (t : String)
    (f : String → ℚ) (ia : Nat × Attack) : String → ℚ :=
  if bl = some ia.1 then f
  else if ia.2.atype ≠ AType.STEAL then f
  else if x ≤ 0 then f
  else
    let f1 := updF f t (f t - (x : ℚ))
    updF f1 ia.2.fromPid (f1 ia.2.fromPid + (x : ℚ))

/-- The new running total set by one applied sabotage:
`Math.floor(before * 0.5)`. -/
def sabotageAfter (before : ℚ) : ℚ := ((⌊before * (1/2)⌋ : ℤ) : ℚ)

/-- One iteration of the SABOTAGE loop for target `t`: skip the blocked
index and non-SABOTAGE attacks, otherwise halve (floored) the target's
running total. -/
def sabStep (bl : Option Nat) (t : String)
    (f : String → ℚ) (ia : Nat × Attack) : String → ℚ :=
  if bl = some ia.1 then f
  else if ia.2.atype ≠ AType.SABOTAGE then f
  else updF f t (sabotageAfter (f t))

/-- The STEAL loop over one target's incoming attacks. -/
def applyStealsFor (g : Game) (t : String) (f : String → ℚ) : String → ℚ :=
  (attacksOn g t).enum.foldl
    (stealStep (baseOf g t).maxTradBaseCardUsd (blockedIdxOf g t) t) f

/-- The SABOTAGE loop over one target's incoming attacks. -/
def applySabsFor (g : Game) (t : String) (f : String → ℚ) : String → ℚ :=
  (attacksOn g t).enum.foldl (sabStep (blockedIdxOf g t) t) f

/-- The full STEAL pass: all targets, in player order. -/
def stealPhase (g : Game) (f : String → ℚ) : String → ℚ :=
  (playerIds g).foldl (fun f t => applyStealsFor g t f) f

/-- The full SABOTAGE pass: all targets, in player order. -/
def sabPhase (g : Game) (f : String → ℚ) : String → ℚ :=
  (playerIds g).foldl (fun f t => applySabsFor g t f) f

/-- The initial running totals: each player's base preview. -/
def auditBaseUsd (g : Game) : String → ℚ := fun p => (baseOf g p).usd

/-- The final per-player totals of `computeAuditFinalForAll`: base
previews, then the STEAL pass, then the SABOTAGE pass. -/
def computeAuditFinalUsd (g : Game) : String → ℚ :=
  sabPhase g (stealPhase g (auditBaseUsd g))

/-- Source `computeAuditFinalForAll(game)`: store each player's final total
(creating the entry if needed, as `ensureSettlePlayer` does) and move
the settlement stage to `FINAL`. -/
def computeAuditFinalForAll (g : Game) : Game :=
  let f := computeAuditFinalUsd g
  let entries := (playerIds g).foldl (fun es pid =>
    let e := (getA es pid).getD defaultSettleEntry
    setA es pid { e with finalUsd := some (f pid) }) g.settleEntries
  let pendings := (playerIds g).foldl (fun ps pid =>
    if (getA ps pid).isSome then ps else setA ps pid ⟨none, []⟩) g.settlePendings
  { g with settleEntries := entries, settlePendings := pendings,
           settleStage := "FINAL" }

/-! ### Claim-C2 spec-side sabotage

The claim says each unblocked sabotage reduces the running total by
exactly `floor(total × 0.5)`. -/

/-- The total after one sabotage as the claim states it: reduced by
`floor(total × 0.5)`. -/
def claimSabotageStep (t : ℚ) : ℚ :=
  t - ((⌊t * (1/2)⌋ : ℤ) : ℚ)

/-- Iterating the claim's sabotage reduction `n` times. -/
def claimSabotageIter : Nat → ℚ → ℚ
  | 0, t => t
  | n + 1, t => claimSabotageIter n (claimSabotageStep t)

/-! ## Audit start handler (`commit_settlement_ready`,
src/index.js lines 1358-1406) -/

/-- Source `ensureSettlePlayer(game, pid)`: create default settle entry and
pending record when absent. -/
def ensureSettlePlayer (g : Game) (pid : String) : Game :=
  let entries :=
    if (getA g.settleEntries pid).isSome then g.settleEntries
    else setA g.settleEntries pid defaultSettleEntry
  let pendings :=
    if (getA g.settlePendings pid).isSome then g.settlePendings
    else setA g.settlePendings pid ⟨none, []⟩
  { g with settleEntries := entries, settlePendings := pendings }

/-- Mark the first unused expert with the given function key as used
(`inv.experts.find(e=>e.functionKey===k && !e.used); ex.used = true`);
`none` when no such expert exists. -/
def consumeExpert : List ExpertCard → String → Option (List ExpertCard)
  | [], _ => none
  | e :: rest, k =>
      if e.functionKey = k && !e.used then some ({ e with used := true } :: rest)
      else (consumeExpert rest k).map (e :: ·)

/-- The per-attack lobbyist consumption loop: consume one unused
`STEAL_BASE_PROD` expert per pending attack; on the first shortage stop,
keeping the experts consumed so far (`false` flags the shortage). -/
def consumeLobby : Nat → List ExpertCard → List ExpertCard × Bool
  | 0, l => (l, true)
  | n + 1, l =>
      match consumeExpert l "STEAL_BASE_PROD" with
      | none => (l, false)
      | some l' => consumeLobby n l'

/-- Write a player's inventory back (`game.inventory[playerId] = inv`). -/
def setInv (g : Game) (pid : String) (inv : Inventory) : Game :=
  { g with inventories := setA g.inventories pid inv }

/-- Mark a settle entry started (`entry.started = true; entry.paid = false`). -/
def setStarted (g : Game) (pid : String) : Game :=
  let e := (getA g.settleEntries pid).getD defaultSettleEntry
  { g with settleEntries := setA g.settleEntries pid { e with started := true, paid := false } }

/-- Source `game.players.every(p=>game.settle.entries[p.playerId]?.started)`. -/
def allStarted (g : Game) : Bool :=
  g.players.all (fun p => ((getA g.settleEntries p.playerId).map (·.started)).getD false)

/-- The tail of the start handler after the `BLOCK_TREND` validation:
consume the lawyer expert (if a lawyer action is pending), then one
lobbyist expert per pending attack, then mark the entry started and, if
every player has started, run the final computation.  Expert used-flags
are set the moment each expert is found, as in the source, so a later
shortage error leaves the earlier consumptions in place. -/
def startConsume (g : Game) (pid : String) (pend : SettlePending) : Ack × Game :=
  let inv := invOf g pid
  match pend.lawyer with
  | some _ =>
      match consumeExpert inv.experts "LAWYER_TRENDS" with
      | none => (Ack.err "NO_POWER", g)
      | some exps1 =>
          let g1 := setInv g pid { inv with experts := exps1 }
          let (exps2, okAll) := consumeLobby pend.lobby.length exps1
          let g2 := setInv g1 pid { inv with experts := exps2 }
          if !okAll then (Ack.err "NO_POWER", g2)
          else
            let g3 := setStarted g2 pid
            (Ack.ok, if allStarted g3 then computeAuditFinalForAll g3 else g3)
  | none =>
      let (exps2, okAll) := consumeLobby pend.lobby.length inv.experts
      let g2 := setInv g pid { inv with experts := exps2 }
      if !okAll then (Ack.err "NO_POWER", g2)
      else
        let g3 := setStarted g2 pid
        (Ack.ok, if allStarted g3 then computeAuditFinalForAll g3 else g3)

/-- The `commit_settlement_ready` (audit start) handler. -/
def commitSettlementReady (g : Game) (pid : String) : Ack × Game :=
  if g.phase ≠ some Phase.SETTLE then (Ack.err "BAD_STATE", g)
  else
    let g := ensureSettlePlayer g pid
    let entry := (getA g.settleEntries pid).getD defaultSettleEntry
    if entry.started then (Ack.ok, g)
    else
      let pend := (getA g.settlePendings pid).getD ⟨none, []⟩
      match pend.lawyer with
      | some (LawyerChoice.BLOCK_TREND k) =>
          match g.globals.find? (fun t => t.key == k) with
          | none => (Ack.err "BAD_INPUT", g)
          | some t =>
              if !t.lawyerAllowed then (Ack.err "BAD_INPUT", g)
              else startConsume g pid pend
      | _ => startConsume g pid pend

/-! ## GM rewind (`canBack` lines 545-570, `gmBack` lines 592-602,
`gm_back` handler lines 744-753) -/

/-- Source `canBack(game)`: the current step has no committed entries. -/
def canBack (g : Game) : Bool :=
  if g.status ≠ GStatus.IN_PROGRESS then false
  else
    match g.phase, g.bizStep with
    | some Phase.BIZ, some BizStep.ML_BID =>
        !(g.mlBids.map (·.2)).any (·.committed)
    | some Phase.BIZ, some BizStep.MOVE =>
        !(g.move.map (·.2)).any (·.committed)
    | some Phase.BIZ, some BizStep.AUCTION_ENVELOPE =>
        !(g.auctionEntries.map (·.2)).any (fun v => v.committed || v.finalCommitted)
    | some Phase.BIZ, some BizStep.ACQUIRE =>
        !(g.acquireEntries.map (·.2)).any (·.committed)
    | some Phase.CRYPTO, _ =>
        !(g.cryptoEntries.map (·.2)).any (·.committed)
    | some Phase.SETTLE, _ =>
        !(g.settleEntries.map (·.2)).any (fun v => v.started || v.paid)
    | _, _ => false

/-- Source `gmBack(game)`: step back along the within-year graph; no branch
matches at `BIZ.ML_BID`, so the state is returned unchanged there. -/
def gmBack (g : Game) : Game :=
  match g.phase, g.bizStep with
  | some Phase.BIZ, some BizStep.MOVE => { g with bizStep := some BizStep.ML_BID }
  | some Phase.BIZ, some BizStep.AUCTION_ENVELOPE => { g with bizStep := some BizStep.MOVE }
  | some Phase.BIZ, some BizStep.ACQUIRE =>
      { g with lobbyistPhaseActive := false, bizStep := some BizStep.AUCTION_ENVELOPE }
  | some Phase.CRYPTO, _ => { g with phase := some Phase.BIZ, bizStep := some BizStep.ACQUIRE }
  | some Phase.SETTLE, _ => { g with phase := some Phase.CRYPTO }
  | _, _ => g

/-- The `gm_back` handler: GM only; refuse with `GUARD_FAIL` unless
`canBack`, else apply `gmBack`. -/
def gmBackHandler (g : Game) (byGM : Bool) : Ack × Game :=
  if !byGM then (Ack.err "FORBIDDEN", g)
  else if !canBack g then (Ack.err "GUARD_FAIL", g)
  else (Ack.ok, gmBack g)

/-- Modelled from the spec (§4.1 transition graph), for comparison with
`gmBack`: the node preceding the given `(phase, step, year)` in the
phase/step graph, where a year's `ML_BID` is entered from the previous
year's `SETTLE`.  `none` for the very first node (year 1 `ML_BID`). -/
def specPriorStep : Option Phase × Option BizStep × Int →
    Option (Option Phase × Option BizStep × Int)
  | (some Phase.BIZ, some BizStep.ML_BID, y) =>
      if y ≤ 1 then none else some (some Phase.SETTLE, none, y - 1)
  | (some Phase.BIZ, some BizStep.MOVE, y) =>
      some (some Phase.BIZ, some BizStep.ML_BID, y)
  | (some Phase.BIZ, some BizStep.AUCTION_ENVELOPE, y) =>
      some (some Phase.BIZ, some BizStep.MOVE, y)
  | (some Phase.BIZ, some BizStep.ACQUIRE, y) =>
      some (some Phase.BIZ, some BizStep.AUCTION_ENVELOPE, y)
  | (some Phase.CRYPTO, _, y) => some (some Phase.BIZ, some BizStep.ACQUIRE, y)
  | (some Phase.SETTLE, _, y) => some (some Phase.CRYPTO, none, y)
  | _ => none

/-! ## Market picking (`pick_market` handler, src/index.js lines 862-882) -/

/-- Source `getPlayer(game, pid)?.marketId`: the first matching player's market. -/
def playerMarket : List Player → String → Option String
  | [], _ => none
  | q :: rest, p => if q.playerId = p then q.marketId else playerMarket rest p

/-- Release of the caller's previous lock (`if(prev && prev in locks)
locks[prev] = null`). -/
def pickLocks1 (g : Game) (pid : String) : List (String × Option String) :=
  match playerMarket g.players pid with
  | some pm =>
      if (getA g.marketLocks pm).isSome then setA g.marketLocks pm none
      else g.marketLocks
  | none => g.marketLocks

/-- The mutation performed by a successful `pick_market`: release the
caller's previous lock (when its key exists), claim the new market,
record the caller's market and mark the move committed. -/
def pickMarketApply (g : Game) (pid marketId : String) : Game :=
  { g with
    marketLocks := setA (pickLocks1 g pid) marketId (some pid),
    players := g.players.map (fun p =>
      if p.playerId = pid then { p with marketId := some marketId } else p),
    move := setA g.move pid ⟨marketId, true⟩ }

/-- The `pick_market` handler. -/
def pickMarket (g : Game) (pid marketId : String) : Ack × Game :=
  if !(g.phase = some Phase.BIZ ∧ g.bizStep = some BizStep.MOVE) then (Ack.err "BAD_STATE", g)
  else if ((getA g.move pid).map (·.committed)).getD false then (Ack.err "ALREADY", g)
  else
    match getA g.marketLocks marketId with
    | none => (Ack.err "BAD_INPUT", g)
    | some cur =>
        if (cur.isSome && cur ≠ some pid : Bool) then (Ack.err "LOCKED", g)
        else (Ack.ok, pickMarketApply g pid marketId)

/-! ## Auction handlers (`commit_auction_bid` lines 885-920,
`commit_auction_final_bid` lines 941-962) -/

/-- Source `game.players.every(p=>entries[p.playerId]?.committed)`. -/
def allAuctionCommitted (players : List Player) (entries : List (String × AuctionEntry)) : Bool :=
  players.all (fun p => ((getA entries p.playerId).map (·.committed)).getD false)

/-- Source `Object.values(entries).some(v=>v?.usedLobbyist)`. -/
def anyLobbyFlag (entries : List (String × AuctionEntry)) : Bool :=
  (entries.map (·.2)).any (·.usedLobbyist)

/-- The `commit_auction_bid` handler: record (overwrite) the caller's
envelope entry, then auto-open the lobbyist sub-window when everyone has
committed and someone flagged lobbyist usage. -/
def commitAuctionBid (g : Game) (pid : String) (bidUsd : Option Int)
    (usedLobbyist : Bool) : Ack × Game :=
  if !(g.phase = some Phase.BIZ ∧ g.bizStep = some BizStep.AUCTION_ENVELOPE) then
    (Ack.err "BAD_STATE", g)
  else if (bidUsd.map (fun v => decide (v < 0))).getD false then (Ack.err "BAD_INPUT", g)
  else
    let es1 := setA g.auctionEntries pid ⟨bidUsd, true, usedLobbyist, none, false⟩
    let g1 := { g with auctionEntries := es1 }
    let g2 :=
      if allAuctionCommitted g.players es1 then
        if anyLobbyFlag es1 then { g1 with lobbyistPhaseActive := true } else g1
      else g1
    (Ack.ok, g2)

/-- The `commit_auction_final_bid` handler. -/
def commitAuctionFinalBid (g : Game) (pid : String)
    (finalBidUsd : Option Int) : Ack × Game :=
  if !(g.phase = some Phase.BIZ ∧ g.bizStep = some BizStep.AUCTION_ENVELOPE) then
    (Ack.err "BAD_STATE", g)
  else if !g.lobbyistPhaseActive then (Ack.err "BAD_STATE", g)
  else
    match getA g.auctionEntries pid with
    | none => (Ack.err "FORBIDDEN", g)
    | some entry =>
        if !entry.usedLobbyist then (Ack.err "FORBIDDEN", g)
        else if (finalBidUsd.map (fun v => decide (v < 0))).getD false then (Ack.err "BAD_INPUT", g)
        else
          let es1 := setA g.auctionEntries pid
            { entry with finalBidUsd := finalBidUsd, finalCommitted := true }
          (Ack.ok, { g with auctionEntries := es1 })

/-! ## Exchange rates (`newGame` line 286, crypto-trend application in
`applyTrendTriggers_OnTrendsToML`, src/index.js lines 420-428) -/

/-- The initial rates set at game creation:
`\x7b BTC:8000, ETH:4000, LTC:2000, SIA:1000 \x7d`. -/
def newGameRates : Rates := ⟨8000, 4000, 2000, 1000⟩

/-- A year's crypto-trend coefficients (one per coin; a missing entry
reads as 1 via `?? 1`, so any rational can appear here). -/
structure CryptoCoeff where
  btc : ℚ
  eth : ℚ
  ltc : ℚ
  sia : ℚ
deriving DecidableEq, Repr

/-- The only mutation of the exchange rates: at year start each rate
becomes `Math.max(1, prev * coef)`. -/
def applyCryptoCoeff (r : Rates) (c : CryptoCoeff) : Rates :=
  ⟨max 1 (r.btc * c.btc), max 1 (r.eth * c.eth),
   max 1 (r.ltc * c.ltc), max 1 (r.sia * c.sia)⟩

/-- Rate states reachable in a game: the creation-time rates, closed
under the yearly crypto-trend application (the sole mutator). -/
inductive RatesReachable : Rates → Prop where
  | init : RatesReachable newGameRates
  | step {r : Rates} (c : CryptoCoeff) :
      RatesReachable r → RatesReachable (applyCryptoCoeff r c)

/-! ## Claim C2: the sabotage reduction -/

/-- A concrete settle-phase game: player A owns one investment card of
base production 2 units (2,000 USD), player B has five pending SABOTAGE
attacks on A, no trends are active. -/
def gC2 : Game where
  status := GStatus.IN_PROGRESS
  phase := some Phase.SETTLE
  bizStep := none
  year := 1
  players := [⟨"A", "PLAYER", none⟩, ⟨"B", "PLAYER", none⟩]
  inventories := [("A", ⟨[⟨2, "EUROPE", "AGRO"⟩], [], []⟩), ("B", blankInventory)]
  globals := []
  rates := newGameRates
  mlBids := []
  move := []
  marketLocks := []
  auctionEntries := []
  lobbyistPhaseActive := false
  acquireEntries := []
  cryptoEntries := []
  settleStage := "PREVIEW"
  settleEntries := [("A", ⟨true, none, false⟩), ("B", ⟨true, none, false⟩)]
  settlePendings := [("B", ⟨none, List.replicate 5 ⟨AType.SABOTAGE, "A"⟩⟩)]

/-! ## Claim C5: audit start consumption is not atomic -/

/-- The failing input for C5: in the SETTLE phase player A has locked in
a lawyer choice and two pending STEAL attacks but owns only one unused
lawyer expert and one unused lobbyist expert. -/
def g5 : Game where
  status := GStatus.IN_PROGRESS
  phase := some Phase.SETTLE
  bizStep := none
  year := 1
  players := [⟨"A", "PLAYER", none⟩, ⟨"B", "PLAYER", none⟩]
  inventories :=
    [("A", ⟨[], [], [⟨"LAWYER_TRENDS", false⟩, ⟨"STEAL_BASE_PROD", false⟩]⟩),
     ("B", blankInventory)]
  globals := []
  rates := newGameRates
  mlBids := []
  move := []
  marketLocks := []
  auctionEntries := []
  lobbyistPhaseActive := false
  acquireEntries := []
  cryptoEntries := []
  settleStage := "PREVIEW"
  settleEntries := [("A", defaultSettleEntry), ("B", defaultSettleEntry)]
  settlePendings :=
    [("A", ⟨some LawyerChoice.SHIELD_LOBBY, [⟨AType.STEAL, "B"⟩, ⟨AType.STEAL, "B"⟩]⟩)]

/-! ## Claim C6: the GM rewind guard -/

/-- The claim's committed-entry condition for the current step: a
committed ML bid, move, auction entry (committed or finalCommitted),
acquire entry, crypto entry, or a settlement entry started or paid. -/
def specCommittedEntryExists (g : Game) : Bool :=
  match g.phase, g.bizStep with
  | some Phase.BIZ, some BizStep.ML_BID => (g.mlBids.map (·.2)).any (·.committed)
  | some Phase.BIZ, some BizStep.MOVE => (g.move.map (·.2)).any (·.committed)
  | some Phase.BIZ, some BizStep.AUCTION_ENVELOPE =>
      (g.auctionEntries.map (·.2)).any (fun v => v.committed || v.finalCommitted)
  | some Phase.BIZ, some BizStep.ACQUIRE => (g.acquireEntries.map (·.2)).any (·.committed)
  | some Phase.CRYPTO, _ => (g.cryptoEntries.map (·.2)).any (·.committed)
  | some Phase.SETTLE, _ => (g.settleEntries.map (·.2)).any (fun v => v.started || v.paid)
  | _, _ => false

/-- An in-progress game at year 2, step `BIZ.ML_BID`, with no committed
entries anywhere. -/
def gC6 : Game where
  status := GStatus.IN_PROGRESS
  phase := some Phase.BIZ
  bizStep := some BizStep.ML_BID
  year := 2
  players := [⟨"G", "GM", none⟩, ⟨"A", "PLAYER", none⟩]
  inventories := []
  globals := []
  rates := newGameRates
  mlBids := []
  move := []
  marketLocks := []
  auctionEntries := []
  lobbyistPhaseActive := false
  acquireEntries := []
  cryptoEntries := []
  settleStage := "PREVIEW"
  settleEntries := []
  settlePendings := []

/-- Variant of `gC6` with one committed ML bid. -/
def gC6b : Game := { gC6 with mlBids := [("A", ⟨some 100, true⟩)] }

/-- The exclusivity link: every occupied market is the recorded market
assignment of its occupant. -/
def locksLinked (g : Game) : Prop :=
  ∀ m p, getA g.marketLocks m = some (some p) → playerMarket g.players p = some m

/-- A MOVE-step game with two free markets and players A and B. -/
def gC7 : Game where
  status := GStatus.IN_PROGRESS
  phase := some Phase.BIZ
  bizStep := some BizStep.MOVE
  year := 1
  players := [⟨"A", "PLAYER", none⟩, ⟨"B", "PLAYER", none⟩]
  inventories := []
  globals := []
  rates := newGameRates
  mlBids := []
  move := []
  marketLocks := [("M01", none), ("M02", none)]
  auctionEntries := []
  lobbyistPhaseActive := false
  acquireEntries := []
  cryptoEntries := []
  settleStage := "PREVIEW"
  settleEntries := []
  settlePendings := []

/-- The state after A successfully picks M01. -/
def gC7s1 : Game := (pickMarket gC7 "A" "M01").2

/-- An AUCTION_ENVELOPE-step game with players A and B and no entries. -/
def gC8 : Game where
  status := GStatus.IN_PROGRESS
  phase := some Phase.BIZ
  bizStep := some BizStep.AUCTION_ENVELOPE
  year := 1
  players := [⟨"A", "PLAYER", none⟩, ⟨"B", "PLAYER", none⟩]
  inventories := []
  globals := []
  rates := newGameRates
  mlBids := []
  move := []
  marketLocks := []
  auctionEntries := []
  lobbyistPhaseActive := false
  acquireEntries := []
  cryptoEntries := []
  settleStage := "PREVIEW"
  settleEntries := []
  settlePendings := []

/-- The state after A seals a bid of 100. -/
def gC8s1 : Game := (commitAuctionBid gC8 "A" (some 100) false).2

/-- Scenario game for C9: players A and B, A has committed an envelope
with the lobbyist flag, B has not committed yet, window closed. -/
def gC9 : Game := { gC8 with auctionEntries := [] }

/-- C9 scenario: A commits with `usedLobbyist = true`. -/
def gC9s1 : Game := (commitAuctionBid gC9 "A" (some 100) true).2

/-- C9 scenario: B then commits without the flag; the window opens. -/
def gC9s2 : Game := (commitAuctionBid gC9s1 "B" (some 50) false).2

/-! ## Claim C3: STEAL is zero-sum and precedes SABOTAGE -/

/-- Sum of the running totals over a list of player ids. -/
def listSum (l : List String) (f : String → ℚ) : ℚ := (l.map f).sum

/-- The claim's transfer amount: the highest base-production card value
of an inventory (0 when no cards). -/
def specHighestCardUsd (inv : Inventory) : Int :=
  (inv.investments.map (fun c => c.usdProduction * 1000)).foldl max 0

/-- A concrete settle-phase game for the C3 witness: A owns one
investment card of base 2 units, B has one pending STEAL on A. -/
def gC3w : Game where
  status := GStatus.IN_PROGRESS
  phase := some Phase.SETTLE
  bizStep := none
  year := 1
  players := [⟨"A", "PLAYER", none⟩, ⟨"B", "PLAYER", none⟩]
  inventories := [("A", ⟨[⟨2, "EUROPE", "AGRO"⟩], [], []⟩), ("B", blankInventory)]
  globals := []
  rates := newGameRates
  mlBids := []
  move := []
  marketLocks := []
  auctionEntries := []
  lobbyistPhaseActive := false
  acquireEntries := []
  cryptoEntries := []
  settleStage := "PREVIEW"
  settleEntries := [("A", ⟨true, none, false⟩), ("B", ⟨true, none, false⟩)]
  settlePendings := [("B", ⟨none, [⟨AType.STEAL, "A"⟩]⟩)]

/-- The target's damage estimate for the attack at one index. -/
def damageAt (g : Game) (t : String) (j : Nat) (hj : j < (attacksOn g t).length) : ℚ :=
  attackDamage (baseOf g t).usd (baseOf g t).maxTradBaseCardUsd
    ((attacksOn g t).get ⟨j, hj⟩)

/-- A settle-phase game for the C4 witness: A holds the shield and is
the target of two STEAL attacks from B. -/
def gC4w : Game where
  status := GStatus.IN_PROGRESS
  phase := some Phase.SETTLE
  bizStep := none
  year := 1
  players := [⟨"A", "PLAYER", none⟩, ⟨"B", "PLAYER", none⟩]
  inventories := [("A", ⟨[⟨2, "EUROPE", "AGRO"⟩], [], []⟩), ("B", blankInventory)]
  globals := []
  rates := newGameRates
  mlBids := []
  move := []
  marketLocks := []
  auctionEntries := []
  lobbyistPhaseActive := false
  acquireEntries := []
  cryptoEntries := []
  settleStage := "PREVIEW"
  settleEntries := [("A", ⟨true, none, false⟩), ("B", ⟨true, none, false⟩)]
  settlePendings :=
    [("A", ⟨some LawyerChoice.SHIELD_LOBBY, []⟩),
     ("B", ⟨none, [⟨AType.STEAL, "A"⟩, ⟨AType.STEAL, "A"⟩]⟩)]

/-! ## Theorems and supporting lemmas -/

/-! ## Helper lemmas -/

theorem foldl_add_eq_sum {α : Type} (f : α → Int) (l : List α) :
    ∀ s : Int, l.foldl (fun a c => a + f c) s = s + (l.map f).sum := by
  induction l with
  | nil => intro s; simp
  | cons c rest ih => intro s; simp [ih, add_assoc]

theorem bonusForCount_eq_specStaircase (n : Nat) :
    bonusForCount n = specStaircase n := by
  unfold bonusForCount specStaircase
  split_ifs <;> first | rfl | omega

theorem groupBonus_eq_spec (keys : List String) :
    groupBonus keys = (keys.dedup.map (fun k => specStaircase (keys.count k))).sum := by
  unfold groupBonus
  simp [bonusForCount_eq_specStaircase]

/-! ## Claim C1: the audit preview formula -/

/-- C1.  For every player the audit settlement preview total equals
`adjustedTraditionalBase + regionalBonus + globalBonus +
miningProductionValue - electricityCost` with the components as the
claim describes them, and the bonus staircase is exactly
0-1 → 0, 2-3 → 10000, 4-5 → 25000, ≥6 → 50000. -/
theorem C1_audit_preview_formula :
    ∀ (globals : List GlobalTrend) (rates : Rates) (inv : Inventory) (bk : Option String),
      (auditPreview globals rates inv bk).usd =
        ((specAdjustedTraditionalBase globals bk inv
            + specRegionalBonus globals bk inv
            + specGlobalBonus globals bk inv : Int) : ℚ)
          + specMiningValue globals rates inv
          - ((specElectricityCost globals bk inv : Int) : ℚ)
      ∧ (∀ n : Nat, bonusForCount n = specStaircase n) := by
  intro globals rates inv bk
  refine ⟨?_, bonusForCount_eq_specStaircase⟩
  unfold auditPreview specAdjustedTraditionalBase specRegionalBonus specGlobalBonus
    specMiningValue specElectricityCost
  simp only [foldl_add_eq_sum, groupBonus_eq_spec, USD_UNIT, zero_add]

/-! ## Claim C10: exchange rates stay at least 1 -/

/-- C10.  In every reachable rate state each of the four exchange rates
is at least 1: the initial rates are positive and the only mutation
clamps below at 1. -/
theorem C10_rates_at_least_one :
    ∀ r : Rates, RatesReachable r →
      1 ≤ r.btc ∧ 1 ≤ r.eth ∧ 1 ≤ r.ltc ∧ 1 ≤ r.sia := by
  intro r h
  induction h with
  | init =>
      refine ⟨?_, ?_, ?_, ?_⟩ <;> norm_num [newGameRates]
  | step c _ _ =>
      exact ⟨le_max_left _ _, le_max_left _ _, le_max_left _ _, le_max_left _ _⟩

/-- Witness for C10 at the creation-time rates. -/
theorem C10_witness :
    1 ≤ newGameRates.btc ∧ 1 ≤ newGameRates.eth
      ∧ 1 ≤ newGameRates.ltc ∧ 1 ≤ newGameRates.sia :=
  C10_rates_at_least_one newGameRates RatesReachable.init

theorem updF_same (f : String → ℚ) (k : String) (v : ℚ) : updF f k v k = v := by
  simp [updF]

theorem updF_other (f : String → ℚ) (k p : String) (v : ℚ) (h : p ≠ k) :
    updF f k v p = f p := by
  simp [updF, h]

theorem updF_updF (f : String → ℚ) (k : String) (v w : ℚ) :
    updF (updF f k v) k w = updF f k w := by
  funext p
  by_cases h : p = k <;> simp [updF, h]

theorem floorHalfInt (n : ℤ) : ⌊((n : ℚ)) * (1/2)⌋ = n / 2 := by
  rw [show ((n : ℚ) * (1/2)) = ((n : ℚ) / ((2 : ℕ) : ℚ)) by push_cast; ring]
  exact Rat.floor_intCast_div_natCast n 2

theorem sabotageAfter_intCast (n : ℤ) :
    sabotageAfter ((n : ℤ) : ℚ) = ((n / 2 : ℤ) : ℚ) := by
  unfold sabotageAfter
  rw [floorHalfInt]

theorem claimSabotageStep_intCast (n : ℤ) :
    claimSabotageStep ((n : ℤ) : ℚ) = ((n - n / 2 : ℤ) : ℚ) := by
  unfold claimSabotageStep
  rw [floorHalfInt]
  push_cast
  ring

theorem gC2_pids : playerIds gC2 = ["A", "B"] := by decide

theorem gC2_attacks_A : attacksOn gC2 "A" =
    [⟨"B", AType.SABOTAGE⟩, ⟨"B", AType.SABOTAGE⟩, ⟨"B", AType.SABOTAGE⟩,
     ⟨"B", AType.SABOTAGE⟩, ⟨"B", AType.SABOTAGE⟩] := by decide

theorem gC2_attacks_B : attacksOn gC2 "B" = [] := by decide

theorem gC2_blocked_A : blockedIdxOf gC2 "A" = none := by decide

theorem gC2_blocked_B : blockedIdxOf gC2 "B" = none := by decide

theorem gC2_base_A : auditBaseUsd gC2 "A" = 2000 := by
  rw [auditBaseUsd, baseOf,
    show invOf gC2 "A" = ⟨[⟨2, "EUROPE", "AGRO"⟩], [], []⟩ from by decide,
    show blockedKeyOf (pendOf gC2 "A") = none from by decide,
    show gC2.globals = [] from rfl]
  norm_num [auditPreview, hasTrendKey, isBlockedKey, unitsFor, USD_UNIT,
    show groupBonus ["EUROPE"] = 0 from by decide,
    show groupBonus ["AGRO"] = 0 from by decide]

theorem gC2_steals_A (f : String → ℚ) : applyStealsFor gC2 "A" f = f := by
  rw [applyStealsFor, gC2_attacks_A, gC2_blocked_A]
  simp [stealStep, List.enum, List.enumFrom]

theorem gC2_steals_B (f : String → ℚ) : applyStealsFor gC2 "B" f = f := by
  rw [applyStealsFor, gC2_attacks_B, gC2_blocked_B]
  simp

theorem gC2_stealPhase (f : String → ℚ) : stealPhase gC2 f = f := by
  rw [stealPhase, gC2_pids]
  simp [gC2_steals_A, gC2_steals_B]

theorem gC2_sabs_A (f : String → ℚ) :
    applySabsFor gC2 "A" f = updF f "A"
      (sabotageAfter (sabotageAfter (sabotageAfter (sabotageAfter
        (sabotageAfter (f "A")))))) := by
  rw [applySabsFor, gC2_attacks_A, gC2_blocked_A]
  simp [sabStep, List.enum, List.enumFrom, updF_updF, updF_same]

theorem gC2_sabs_B (f : String → ℚ) : applySabsFor gC2 "B" f = f := by
  rw [applySabsFor, gC2_attacks_B, gC2_blocked_B]
  simp

theorem sabotageAfter_2000 : sabotageAfter 2000 = 1000 := by
  have h := sabotageAfter_intCast 2000; norm_num at h; exact h

theorem sabotageAfter_1000 : sabotageAfter 1000 = 500 := by
  have h := sabotageAfter_intCast 1000; norm_num at h; exact h

theorem sabotageAfter_500 : sabotageAfter 500 = 250 := by
  have h := sabotageAfter_intCast 500; norm_num at h; exact h

theorem sabotageAfter_250 : sabotageAfter 250 = 125 := by
  have h := sabotageAfter_intCast 250; norm_num at h; exact h

theorem sabotageAfter_125 : sabotageAfter 125 = 62 := by
  have h := sabotageAfter_intCast 125; norm_num at h; exact h

theorem gC2_final_A : computeAuditFinalUsd gC2 "A" = 62 := by
  rw [computeAuditFinalUsd, gC2_stealPhase, sabPhase, gC2_pids]
  simp only [List.foldl_cons, List.foldl_nil]
  rw [gC2_sabs_A, gC2_sabs_B, updF_same, gC2_base_A,
    sabotageAfter_2000, sabotageAfter_1000, sabotageAfter_500,
    sabotageAfter_250, sabotageAfter_125]

theorem gC2_claim_63 : claimSabotageIter 5 (auditBaseUsd gC2 "A") = 63 := by
  have c1 : claimSabotageStep 2000 = 1000 := by
    have h := claimSabotageStep_intCast 2000; norm_num at h; exact h
  have c2 : claimSabotageStep 1000 = 500 := by
    have h := claimSabotageStep_intCast 1000; norm_num at h; exact h
  have c3 : claimSabotageStep 500 = 250 := by
    have h := claimSabotageStep_intCast 500; norm_num at h; exact h
  have c4 : claimSabotageStep 250 = 125 := by
    have h := claimSabotageStep_intCast 250; norm_num at h; exact h
  have c5 : claimSabotageStep 125 = 63 := by
    have h := claimSabotageStep_intCast 125; norm_num at h; exact h
  rw [gC2_base_A]
  show claimSabotageIter (Nat.succ (Nat.succ (Nat.succ (Nat.succ (Nat.succ 0))))) 2000 = 63
  simp only [claimSabotageIter, c1, c2, c3, c4, c5]

/-- C2 counterexample.  A's base total is 2000; after the five unblocked
sabotages the code leaves 62 (each sets the total to
`floor(total·0.5)`), while reducing each time by `floor(total·0.5)` as
the claim states would leave 63: at the running total 125 the code
subtracts `125 − floor(62.5) = 63`, not `floor(125·0.5) = 62`. -/
theorem C2_counterexample :
    auditBaseUsd gC2 "A" = 2000 ∧
    computeAuditFinalUsd gC2 "A" = 62 ∧
    claimSabotageIter 5 (auditBaseUsd gC2 "A") = 63 ∧
    computeAuditFinalUsd gC2 "A" ≠ claimSabotageIter 5 (auditBaseUsd gC2 "A") := by
  refine ⟨gC2_base_A, gC2_final_A, gC2_claim_63, ?_⟩
  rw [gC2_final_A, gC2_claim_63]
  norm_num

/-- C2 (amended).  In the final audit computation every unblocked
SABOTAGE sets the target's running total to `floor(total × 0.5)` — i.e.
reduces it by `total − floor(total × 0.5)`, which exceeds
`floor(total × 0.5)` by one on odd totals — and leaves every other
player's total alone; a blocked SABOTAGE changes nothing. -/
theorem C2_sabotage_sets_floor_half :
    ∀ (bl : Option Nat) (t : String) (f : String → ℚ) (i : Nat) (a : Attack),
      (a.atype = AType.SABOTAGE → bl ≠ some i →
        (sabStep bl t f (i, a)) t = sabotageAfter (f t) ∧
        f t - (sabStep bl t f (i, a)) t
          = f t - ((⌊f t * (1/2)⌋ : ℤ) : ℚ) ∧
        ∀ p, p ≠ t → (sabStep bl t f (i, a)) p = f p) ∧
      (bl = some i → sabStep bl t f (i, a) = f) := by
  intro bl t f i a
  constructor
  · intro ha hbl
    unfold sabStep
    rw [if_neg hbl, if_neg (by simp [ha])]
    refine ⟨by simp [updF], by simp [updF, sabotageAfter], ?_⟩
    intro p hp
    simp [updF, hp]
  · intro hbl
    unfold sabStep
    rw [if_pos hbl]

/-- Witness for the amended C2 at a concrete odd running total 7:
the sabotage leaves 3, a reduction of 4. -/
theorem C2_sabotage_sets_floor_half_witness :
    (sabStep none "T" (fun _ => (7 : ℚ)) (0, ⟨"B", AType.SABOTAGE⟩)) "T" = sabotageAfter 7
      ∧ sabotageAfter 7 = 3 := by
  refine ⟨?_, by have h := sabotageAfter_intCast 7; norm_num at h; exact h⟩
  exact ((C2_sabotage_sets_floor_half none "T" (fun _ => (7 : ℚ)) 0
    ⟨"B", AType.SABOTAGE⟩).1 rfl (by decide)).1

/-- C5.  The audit start handler is not atomic on failure: on `g5` it
returns the `NO_POWER` error acknowledgment for the missing second
lobbyist, yet it has already marked A's lawyer expert and first lobbyist
expert as used, leaving the aggregate modified (while `started` stays
false, so a retry would consume even more experts). -/
theorem C5_nonatomic_consumption :
    (commitSettlementReady g5 "A").1 = Ack.err "NO_POWER" ∧
    (invOf (commitSettlementReady g5 "A").2 "A").experts.map (·.used) = [true, true] ∧
    (invOf g5 "A").experts.map (·.used) = [false, false] ∧
    getA (commitSettlementReady g5 "A").2.settleEntries "A" = some defaultSettleEntry ∧
    (commitSettlementReady g5 "A").2 ≠ g5 := by decide

/-- C6 counterexample.  At `BIZ.ML_BID` of year 2 with no commits, the
rewind is *not* refused — it acknowledges success — but it does not
restore the prior step of the phase/step graph (the previous year's
`SETTLE`): the state is returned unchanged. -/
theorem C6_counterexample :
    gmBackHandler gC6 true = (Ack.ok, gC6) ∧
    specPriorStep (gC6.phase, gC6.bizStep, gC6.year) = some (some Phase.SETTLE, none, 1) ∧
    ((gmBackHandler gC6 true).2.phase, (gmBackHandler gC6 true).2.bizStep,
      (gmBackHandler gC6 true).2.year) ≠ (some Phase.SETTLE, none, 1) := by decide

/-- C6 (amended).  For an in-progress game (with the phase/step shape
invariant), `gm_back` is refused with `GUARD_FAIL` and no mutation
whenever a committed entry exists for the current step; otherwise it
acknowledges success and restores the prior step *within the year*
(`MOVE → ML_BID`, `AUCTION_ENVELOPE → MOVE`, `ACQUIRE →
AUCTION_ENVELOPE`, `CRYPTO → BIZ.ACQUIRE`, `SETTLE → CRYPTO`), except at
`BIZ.ML_BID`, where it succeeds but changes nothing (rewind never
crosses a year boundary). -/
theorem C6_gm_back_guard :
    ∀ g : Game, g.status = GStatus.IN_PROGRESS →
      (g.phase = some Phase.BIZ → g.bizStep ≠ none) →
      g.phase ≠ none →
      (specCommittedEntryExists g = true →
        gmBackHandler g true = (Ack.err "GUARD_FAIL", g)) ∧
      (specCommittedEntryExists g = false →
        gmBackHandler g true = (Ack.ok, gmBack g) ∧
        (g.phase = some Phase.BIZ → g.bizStep = some BizStep.MOVE →
          (gmBack g).phase = some Phase.BIZ ∧ (gmBack g).bizStep = some BizStep.ML_BID) ∧
        (g.phase = some Phase.BIZ → g.bizStep = some BizStep.AUCTION_ENVELOPE →
          (gmBack g).phase = some Phase.BIZ ∧ (gmBack g).bizStep = some BizStep.MOVE) ∧
        (g.phase = some Phase.BIZ → g.bizStep = some BizStep.ACQUIRE →
          (gmBack g).phase = some Phase.BIZ ∧ (gmBack g).bizStep = some BizStep.AUCTION_ENVELOPE) ∧
        (g.phase = some Phase.CRYPTO →
          (gmBack g).phase = some Phase.BIZ ∧ (gmBack g).bizStep = some BizStep.ACQUIRE) ∧
        (g.phase = some Phase.SETTLE → (gmBack g).phase = some Phase.CRYPTO) ∧
        (g.phase = some Phase.BIZ → g.bizStep = some BizStep.ML_BID → gmBack g = g)) := by
  intro g hst hwf hph
  have hcan : canBack g = !specCommittedEntryExists g := by
    unfold canBack specCommittedEntryExists
    rw [if_neg (by simp [hst])]
    rcases hp : g.phase with _ | p
    · exact absurd hp hph
    rcases hb : g.bizStep with _ | b
    · cases p with
      | BIZ => exact absurd hb (hwf hp)
      | CRYPTO => rfl
      | SETTLE => rfl
    · cases p <;> cases b <;> rfl
  constructor
  · intro hspec
    unfold gmBackHandler
    rw [hcan, hspec]
    rfl
  · intro hspec
    refine ⟨?_, ?_, ?_, ?_, ?_, ?_, ?_⟩
    · unfold gmBackHandler
      rw [hcan, hspec]
      rfl
    · intro h1 h2; unfold gmBack; rw [h1, h2]; exact ⟨rfl, rfl⟩
    · intro h1 h2; unfold gmBack; rw [h1, h2]; exact ⟨rfl, rfl⟩
    · intro h1 h2; unfold gmBack; rw [h1, h2]; exact ⟨rfl, rfl⟩
    · intro h1; unfold gmBack; rw [h1]; exact ⟨rfl, rfl⟩
    · intro h1; unfold gmBack; rw [h1]
    · intro h1 h2; unfold gmBack; rw [h1, h2]

/-- Witness for the amended C6: on `gC6` (no commits) the rewind
acknowledges success and leaves the (first-step) state; on `gC6b` (a
committed ML bid) it is refused with `GUARD_FAIL` and no mutation. -/
theorem C6_gm_back_guard_witness :
    gmBackHandler gC6 true = (Ack.ok, gmBack gC6) ∧
    gmBackHandler gC6b true = (Ack.err "GUARD_FAIL", gC6b) :=
  ⟨((C6_gm_back_guard gC6 (by decide) (by decide) (by decide)).2 (by decide)).1,
   (C6_gm_back_guard gC6b (by decide) (by decide) (by decide)).1 (by decide)⟩

/-! ## Claim C7: market occupancy -/

theorem getA_setA_same {β : Type} (l : List (String × β)) (k : String) (v : β) :
    getA (setA l k v) k = some v := by
  induction l with
  | nil => simp [setA, getA]
  | cons h rest ih =>
      obtain ⟨k', v'⟩ := h
      by_cases hk : k' = k <;> simp [setA, getA, hk, ih]

theorem getA_setA_other {β : Type} (l : List (String × β)) (k k' : String) (v : β)
    (h : k' ≠ k) : getA (setA l k v) k' = getA l k' := by
  induction l with
  | nil => simp [setA, getA, Ne.symm h]
  | cons hd rest ih =>
      obtain ⟨k'', v''⟩ := hd
      by_cases hk : k'' = k
      · subst hk
        simp [setA, getA, Ne.symm h]
      · simp [setA, getA, hk, ih]

theorem playerMarket_update_self (ps : List Player) (pid mid : String)
    (hmem : ps.any (fun q => q.playerId = pid) = true) :
    playerMarket (ps.map (fun q =>
      if q.playerId = pid then { q with marketId := some mid } else q)) pid = some mid := by
  induction ps with
  | nil => simp at hmem
  | cons q rest ih =>
      by_cases hq : q.playerId = pid
      · simp [playerMarket, hq]
      · have hmem' : rest.any (fun q => q.playerId = pid) = true := by
          simpa [List.any_cons, hq] using hmem
        simpa [playerMarket, hq] using ih hmem'

theorem playerMarket_update_other (ps : List Player) (pid mid p : String)
    (hp : p ≠ pid) :
    playerMarket (ps.map (fun q =>
      if q.playerId = pid then { q with marketId := some mid } else q)) p
      = playerMarket ps p := by
  have hne : ¬ pid = p := fun hh => hp hh.symm
  induction ps with
  | nil => simp [playerMarket]
  | cons q rest ih =>
      by_cases hq : q.playerId = pid
      · simpa [playerMarket, hq, hne] using ih
      · by_cases hqp : q.playerId = p
        · simp [playerMarket, hq, hqp, hp, hne]
        · simpa [playerMarket, hq, hqp] using ih

theorem pickLocks1_none (g : Game) (pid : String)
    (h : playerMarket g.players pid = none) : pickLocks1 g pid = g.marketLocks := by
  simp [pickLocks1, h]

theorem pickLocks1_present (g : Game) (pid pm : String)
    (h : playerMarket g.players pid = some pm)
    (hsome : (getA g.marketLocks pm).isSome = true) :
    pickLocks1 g pid = setA g.marketLocks pm none := by
  simp [pickLocks1, h, hsome]

theorem pickLocks1_absent (g : Game) (pid pm : String)
    (h : playerMarket g.players pid = some pm)
    (hnone : ¬ (getA g.marketLocks pm).isSome = true) :
    pickLocks1 g pid = g.marketLocks := by
  simp [pickLocks1, h, hnone]

theorem pickMarketApply_linked (g : Game) (pid mid : String)
    (hmem : g.players.any (fun q => q.playerId = pid) = true)
    (hlink : locksLinked g) : locksLinked (pickMarketApply g pid mid) := by
  intro m p hmp
  simp only [pickMarketApply] at hmp ⊢
  by_cases hm : m = mid
  · rw [hm, getA_setA_same] at hmp
    have hpe : pid = p := Option.some.inj (Option.some.inj hmp)
    rw [hm, ← hpe]
    exact playerMarket_update_self g.players pid mid hmem
  · rw [getA_setA_other _ _ _ _ hm] at hmp
    by_cases hp : p = pid
    · exfalso
      rcases hprev : playerMarket g.players pid with _ | pm
      · rw [pickLocks1_none g pid hprev] at hmp
        have he := hlink m p hmp
        rw [hp, hprev] at he
        exact Option.noConfusion he
      · by_cases hcase : (getA g.marketLocks pm).isSome = true
        · rw [pickLocks1_present g pid pm hprev hcase] at hmp
          by_cases hpmm : m = pm
          · rw [hpmm, getA_setA_same] at hmp
            exact Option.noConfusion (Option.some.inj hmp)
          · rw [getA_setA_other _ _ _ _ hpmm] at hmp
            have he := hlink m p hmp
            rw [hp, hprev] at he
            exact hpmm (Option.some.inj he).symm
        · rw [pickLocks1_absent g pid pm hprev hcase] at hmp
          have he := hlink m p hmp
          rw [hp, hprev] at he
          have hpm_m : pm = m := Option.some.inj he
          rw [hpm_m, hmp] at hcase
          exact hcase rfl
    · rw [playerMarket_update_other _ _ _ _ hp]
      have hmp' : getA g.marketLocks m = some (some p) := by
        rcases hprev : playerMarket g.players pid with _ | pm
        · rwa [pickLocks1_none g pid hprev] at hmp
        · by_cases hcase : (getA g.marketLocks pm).isSome = true
          · rw [pickLocks1_present g pid pm hprev hcase] at hmp
            by_cases hpmm : m = pm
            · rw [hpmm, getA_setA_same] at hmp
              exact absurd (Option.some.inj hmp) (fun hh => Option.noConfusion hh)
            · rwa [getA_setA_other _ _ _ _ hpmm] at hmp
          · rwa [pickLocks1_absent g pid pm hprev hcase] at hmp
      exact hlink m p hmp'

/-- C7 counterexample.  Re-picking is *not* supported: after A's
successful pick of M01, A's attempt to pick the free market M02 is
rejected with `ALREADY` and changes nothing — M01 stays locked by A and
M02 is not acquired — contradicting "a player picking a new market
releases their previously held lock atomically with acquiring the new
one". -/
theorem C7_counterexample :
    (pickMarket gC7 "A" "M01").1 = Ack.ok ∧
    getA gC7s1.marketLocks "M01" = some (some "A") ∧
    pickMarket gC7s1 "A" "M02" = (Ack.err "ALREADY", gC7s1) ∧
    getA (pickMarket gC7s1 "A" "M02").2.marketLocks "M02" = some none := by
  decide

/-- C7 (amended).  In the MOVE step: a market holds at most one
occupant, and the exclusivity link (each occupied market is its
occupant's recorded market, whence no player occupies two markets) is
preserved by `pick_market` for any player in the session; a
`pick_market` by a caller who has not yet committed a move, for a market
locked by a different player, is rejected with `LOCKED` and changes
nothing; but a caller who has already committed this step cannot
re-pick: the call is rejected with `ALREADY` and changes nothing.  On
success the caller atomically holds the new market's lock and is marked
committed. -/
theorem C7_market_locks :
    ∀ (g : Game) (pid mid : String),
      g.phase = some Phase.BIZ → g.bizStep = some BizStep.MOVE →
      ((((getA g.move pid).map (·.committed)).getD false = true →
          pickMarket g pid mid = (Ack.err "ALREADY", g)) ∧
       (((getA g.move pid).map (·.committed)).getD false = false →
          ∀ q, getA g.marketLocks mid = some (some q) → q ≠ pid →
            pickMarket g pid mid = (Ack.err "LOCKED", g)) ∧
       (locksLinked g →
          ∀ m1 m2 p, getA g.marketLocks m1 = some (some p) →
            getA g.marketLocks m2 = some (some p) → m1 = m2) ∧
       (g.players.any (fun q => q.playerId = pid) = true → locksLinked g →
          locksLinked (pickMarket g pid mid).2) ∧
       ((pickMarket g pid mid).1 = Ack.ok →
          getA (pickMarket g pid mid).2.marketLocks mid = some (some pid) ∧
          ((getA (pickMarket g pid mid).2.move pid).map (·.committed)).getD false = true)) := by
  intro g pid mid hph hbs
  have hcond : (!(g.phase = some Phase.BIZ ∧ g.bizStep = some BizStep.MOVE) : Bool) = false := by
    simp [hph, hbs]
  refine ⟨?_, ?_, ?_, ?_, ?_⟩
  · intro hcom
    unfold pickMarket
    rw [hcond]
    simp only [Bool.false_eq_true, if_false]
    rw [if_pos hcom]
  · intro hcom q hq hqp
    unfold pickMarket
    rw [hcond]
    simp only [Bool.false_eq_true, if_false]
    rw [if_neg (by simp [hcom]), hq]
    simp [hqp]
  · intro hlink m1 m2 p h1 h2
    have e1 := hlink m1 p h1
    have e2 := hlink m2 p h2
    rw [e1] at e2
    exact Option.some.inj e2
  · intro hmem hlink
    unfold pickMarket
    rw [hcond]
    simp only [Bool.false_eq_true, if_false]
    split
    · exact hlink
    · split
      · exact hlink
      · split
        · exact hlink
        · exact pickMarketApply_linked g pid mid hmem hlink
  · unfold pickMarket
    rw [hcond]
    simp only [Bool.false_eq_true, if_false]
    split
    · intro hok
      exact absurd hok (by simp)
    · split
      · intro hok
        exact absurd hok (by simp)
      · split
        · intro hok
          exact absurd hok (by simp)
        · intro _
          refine ⟨?_, ?_⟩
          · simp only [pickMarketApply]
            exact getA_setA_same _ _ _
          · simp only [pickMarketApply]
            rw [getA_setA_same]
            rfl

/-- Witness for the amended C7: after A locks M01, B's pick of M01 is
rejected `LOCKED` with no change, and A's re-pick of M02 is rejected
`ALREADY` with no change. -/
theorem C7_market_locks_witness :
    pickMarket gC7s1 "B" "M01" = (Ack.err "LOCKED", gC7s1) ∧
    pickMarket gC7s1 "A" "M02" = (Ack.err "ALREADY", gC7s1) :=
  ⟨(C7_market_locks gC7s1 "B" "M01" (by decide) (by decide)).2.1 (by decide)
      "A" (by decide) (by decide),
   (C7_market_locks gC7s1 "A" "M02" (by decide) (by decide)).1 (by decide)⟩

/-! ## Claims C8 and C9: auction entries and the lobbyist window -/

theorem mem_setA_values {β : Type} (l : List (String × β)) (k : String) (v w : β) :
    w ∈ (setA l k v).map (·.2) → w = v ∨ w ∈ l.map (·.2) := by
  induction l with
  | nil => simp [setA]
  | cons hd rest ih =>
      obtain ⟨k', v'⟩ := hd
      by_cases hk : k' = k
      · simp [setA, hk]
        tauto
      · simp only [setA, if_neg hk, List.map_cons, List.mem_cons]
        intro h
        rcases h with h | h
        · right; left; exact h
        · rcases ih h with h' | h'
          · left; exact h'
          · right; right; exact h'

/-- C8 counterexample.  Sealed auction bids are *not* write-once: after
A's committed envelope of 100, a repeated `commit_auction_bid` by A in
the same step succeeds and silently replaces the sealed bid with 200. -/
theorem C8_counterexample :
    (commitAuctionBid gC8 "A" (some 100) false).1 = Ack.ok ∧
    (getA gC8s1.auctionEntries "A").map (·.committed) = some true ∧
    (getA gC8s1.auctionEntries "A").map (·.bidUsd) = some (some 100) ∧
    (commitAuctionBid gC8s1 "A" (some 200) false).1 = Ack.ok ∧
    (getA (commitAuctionBid gC8s1 "A" (some 200) false).2.auctionEntries "A").map (·.bidUsd)
      = some (some 200) := by
  decide

/-- C8 (amended).  A valid repeated `commit_auction_bid` always
overwrites the caller's whole auction entry, committed or not (entries
are not write-once); a final bid can only be set while the lobbyist
last-call sub-window is active by a player whose round-1 entry declared
lobbyist usage, and a rejected final bid changes nothing. -/
theorem C8_auction_overwrite :
    ∀ (g : Game) (pid : String) (bid : Option Int) (flag : Bool),
      g.phase = some Phase.BIZ → g.bizStep = some BizStep.AUCTION_ENVELOPE →
      (bid.map (fun v => decide (v < 0))).getD false = false →
      ((commitAuctionBid g pid bid flag).1 = Ack.ok ∧
       getA (commitAuctionBid g pid bid flag).2.auctionEntries pid
         = some ⟨bid, true, flag, none, false⟩) ∧
      (∀ v, (commitAuctionFinalBid g pid v).1 = Ack.ok →
        g.lobbyistPhaseActive = true ∧
        ((getA g.auctionEntries pid).map (·.usedLobbyist)).getD false = true) ∧
      (∀ v, (commitAuctionFinalBid g pid v).1 ≠ Ack.ok →
        (commitAuctionFinalBid g pid v).2 = g) := by
  intro g pid bid flag hph hbs hbid
  have hcond : (!(g.phase = some Phase.BIZ ∧ g.bizStep = some BizStep.AUCTION_ENVELOPE) : Bool)
      = false := by simp [hph, hbs]
  refine ⟨?_, ?_, ?_⟩
  · unfold commitAuctionBid
    rw [hcond]
    simp only [Bool.false_eq_true, if_false]
    rw [if_neg (by simp [hbid])]
    constructor
    · split
      · split <;> rfl
      · rfl
    · split
      · split
        · exact getA_setA_same _ _ _
        · exact getA_setA_same _ _ _
      · exact getA_setA_same _ _ _
  · intro v
    unfold commitAuctionFinalBid
    rw [hcond]
    simp only [Bool.false_eq_true, if_false]
    by_cases hact : g.lobbyistPhaseActive
    · rw [if_neg (by simp [hact])]
      rcases hent : getA g.auctionEntries pid with _ | entry
      · intro hok
        exact absurd hok (by simp)
      · dsimp only
        by_cases hflag : entry.usedLobbyist
        · intro _
          exact ⟨hact, by simp [hent, hflag]⟩
        · rw [if_pos (by simp [hflag])]
          intro hok
          exact absurd hok (by simp)
    · rw [if_pos (by simp [hact])]
      intro hok
      exact absurd hok (by simp)
  · intro v
    unfold commitAuctionFinalBid
    rw [hcond]
    simp only [Bool.false_eq_true, if_false]
    by_cases hact : g.lobbyistPhaseActive
    · rw [if_neg (by simp [hact])]
      rcases hent : getA g.auctionEntries pid with _ | entry
      · intro _; rfl
      · dsimp only
        by_cases hflag : entry.usedLobbyist
        · rw [if_neg (by simp [hflag])]
          by_cases hv : (v.map (fun x => decide (x < 0))).getD false = true
          · rw [if_pos hv]
            intro _; rfl
          · rw [if_neg hv]
            intro hok
            exact absurd rfl hok
        · rw [if_pos (by simp [hflag])]
          intro _; rfl
    · rw [if_pos (by simp [hact])]
      intro _; rfl

/-- Witness for the amended C8: on `gC8s1` (A's sealed bid 100,
committed) a repeated commit by A succeeds and the stored entry becomes
the fresh one with bid 200. -/
theorem C8_auction_overwrite_witness :
    (commitAuctionBid gC8s1 "A" (some 200) false).1 = Ack.ok ∧
    getA (commitAuctionBid gC8s1 "A" (some 200) false).2.auctionEntries "A"
      = some ⟨some 200, true, false, none, false⟩ :=
  (C8_auction_overwrite gC8s1 "A" (some 200) false
    (by decide) (by decide) (by decide)).1

/-- C9.  The lobbyist last-call window opens automatically exactly when,
after a valid envelope commit, every player has a committed entry and
some stored (always committed) entry has the lobbyist flag; while the
window is closed any final bid is rejected `BAD_STATE`, and while it is
open a final bid from a player without the declared flag is rejected
`FORBIDDEN`, both with no state change. -/
theorem C9_lobbyist_window :
    ∀ (g : Game) (pid : String) (bid : Option Int) (flag : Bool),
      g.phase = some Phase.BIZ → g.bizStep = some BizStep.AUCTION_ENVELOPE →
      (bid.map (fun v => decide (v < 0))).getD false = false →
      ((commitAuctionBid g pid bid flag).2.lobbyistPhaseActive
         = (g.lobbyistPhaseActive
            || (allAuctionCommitted g.players (commitAuctionBid g pid bid flag).2.auctionEntries
                && anyLobbyFlag (commitAuctionBid g pid bid flag).2.auctionEntries))) ∧
      (g.lobbyistPhaseActive = false →
        ((commitAuctionBid g pid bid flag).2.lobbyistPhaseActive = true ↔
          (allAuctionCommitted g.players (commitAuctionBid g pid bid flag).2.auctionEntries
            && anyLobbyFlag (commitAuctionBid g pid bid flag).2.auctionEntries) = true)) ∧
      ((∀ e ∈ g.auctionEntries.map (·.2), e.committed = true) →
        ∀ e ∈ (commitAuctionBid g pid bid flag).2.auctionEntries.map (·.2),
          e.committed = true) ∧
      (g.lobbyistPhaseActive = false →
        ∀ v, commitAuctionFinalBid g pid v = (Ack.err "BAD_STATE", g)) ∧
      (g.lobbyistPhaseActive = true →
        ((getA g.auctionEntries pid).map (·.usedLobbyist)).getD false = false →
        ∀ v, commitAuctionFinalBid g pid v = (Ack.err "FORBIDDEN", g)) := by
  intro g pid bid flag hph hbs hbid
  have hcond : (!(g.phase = some Phase.BIZ ∧ g.bizStep = some BizStep.AUCTION_ENVELOPE) : Bool)
      = false := by simp [hph, hbs]
  have hmain : (commitAuctionBid g pid bid flag).2
      = (if allAuctionCommitted g.players
            (setA g.auctionEntries pid ⟨bid, true, flag, none, false⟩) then
          (if anyLobbyFlag (setA g.auctionEntries pid ⟨bid, true, flag, none, false⟩) then
            { g with auctionEntries := setA g.auctionEntries pid ⟨bid, true, flag, none, false⟩,
                     lobbyistPhaseActive := true }
          else { g with auctionEntries := setA g.auctionEntries pid ⟨bid, true, flag, none, false⟩ })
        else { g with auctionEntries := setA g.auctionEntries pid ⟨bid, true, flag, none, false⟩ }) := by
    unfold commitAuctionBid
    rw [hcond]
    simp only [Bool.false_eq_true, if_false]
    rw [if_neg (by simp [hbid])]
  refine ⟨?_, ?_, ?_, ?_, ?_⟩
  · rw [hmain]
    split
    · split
      · rename_i h1 h2
        dsimp only
        rw [h1, h2]
        simp
      · rename_i h1 h2
        dsimp only
        rw [h1, show anyLobbyFlag (setA g.auctionEntries pid ⟨bid, true, flag, none, false⟩)
            = false from by simpa using h2]
        simp
    · rename_i h1
      dsimp only
      rw [show allAuctionCommitted g.players
            (setA g.auctionEntries pid ⟨bid, true, flag, none, false⟩)
          = false from by simpa using h1]
      simp
  · intro hact
    rw [hmain]
    split
    · split
      · rename_i h1 h2
        dsimp only
        rw [h1, h2]
        simp
      · rename_i h1 h2
        dsimp only
        rw [hact, h1, show anyLobbyFlag (setA g.auctionEntries pid ⟨bid, true, flag, none, false⟩)
            = false from by simpa using h2]
        simp
    · rename_i h1
      dsimp only
      rw [hact, show allAuctionCommitted g.players
            (setA g.auctionEntries pid ⟨bid, true, flag, none, false⟩)
          = false from by simpa using h1]
      simp
  · intro hall e he
    rw [hmain] at he
    have he' : e ∈ (setA g.auctionEntries pid
        (⟨bid, true, flag, none, false⟩ : AuctionEntry)).map (·.2) := by
      revert he
      split
      · split
        · exact fun he => he
        · exact fun he => he
      · exact fun he => he
    rcases mem_setA_values _ _ _ _ he' with h | h
    · rw [h]
    · exact hall e h
  · intro hact v
    unfold commitAuctionFinalBid
    rw [hcond]
    simp only [Bool.false_eq_true, if_false]
    rw [if_pos (by simp [hact])]
  · intro hact hflag v
    unfold commitAuctionFinalBid
    rw [hcond]
    simp only [Bool.false_eq_true, if_false]
    rw [if_neg (by simp [hact])]
    rcases hent : getA g.auctionEntries pid with _ | entry
    · rfl
    · dsimp only
      rw [if_pos ?_]
      rw [hent] at hflag
      simpa using hflag

/-- Witness for C9, the spec scenario: after A (lobbyist) and B commit,
B's final-bid attempt is rejected `FORBIDDEN` with no change, and the
auto-open equation holds at B's commit. -/
theorem C9_lobbyist_window_witness :
    (commitAuctionFinalBid gC9s2 "B" (some 10) = (Ack.err "FORBIDDEN", gC9s2)) ∧
    ((commitAuctionBid gC9s1 "B" (some 50) false).2.lobbyistPhaseActive
      = (gC9s1.lobbyistPhaseActive
         || (allAuctionCommitted gC9s1.players
               (commitAuctionBid gC9s1 "B" (some 50) false).2.auctionEntries
             && anyLobbyFlag (commitAuctionBid gC9s1 "B" (some 50) false).2.auctionEntries))) :=
  ⟨(C9_lobbyist_window gC9s2 "B" (some 10) false
      (by decide) (by decide) (by decide)).2.2.2.2 (by decide) (by decide) (some 10),
   (C9_lobbyist_window gC9s1 "B" (some 50) false
      (by decide) (by decide) (by decide)).1⟩

theorem le_foldl_max {α : Type} (f : α → Int) :
    ∀ (l : List α) (init : Int), init ≤ l.foldl (fun m c => max m (f c)) init
  | [], _ => le_refl _
  | c :: rest, init => le_trans (le_max_left _ _) (le_foldl_max f rest _)

theorem foldl_max_map {α : Type} (f : α → Int) :
    ∀ (l : List α) (init : Int),
      l.foldl (fun m c => max m (f c)) init = (l.map f).foldl max init
  | [], _ => rfl
  | c :: rest, init => by
      simp only [List.foldl_cons, List.map_cons]
      exact foldl_max_map f rest _

theorem maxTradBaseCardUsd_nonneg (globals : List GlobalTrend) (rates : Rates)
    (inv : Inventory) (bk : Option String) :
    0 ≤ (auditPreview globals rates inv bk).maxTradBaseCardUsd :=
  le_foldl_max _ _ _

theorem maxTradBaseCardUsd_eq_spec (globals : List GlobalTrend) (rates : Rates)
    (inv : Inventory) (bk : Option String) :
    (auditPreview globals rates inv bk).maxTradBaseCardUsd = specHighestCardUsd inv := by
  unfold auditPreview specHighestCardUsd USD_UNIT
  exact foldl_max_map _ _ _

theorem stealStep_unblocked (x : Int) (bl : Option Nat) (t : String) (f : String → ℚ)
    (i : Nat) (a : Attack) (hx : 0 ≤ x) (ha : a.atype = AType.STEAL) (hbl : bl ≠ some i) :
    ∀ p, stealStep x bl t f (i, a) p
      = f p + (if p = a.fromPid then (x : ℚ) else 0) - (if p = t then (x : ℚ) else 0) := by
  intro p
  unfold stealStep
  rw [if_neg hbl, if_neg (by simp [ha])]
  by_cases hx0 : x ≤ 0
  · have hz : x = 0 := le_antisymm hx0 hx
    rw [if_pos hx0, hz]
    simp
  · rw [if_neg hx0]
    simp only [updF]
    by_cases h1 : p = a.fromPid
    · by_cases h2 : a.fromPid = t
      · rw [if_pos h1, if_pos h2, if_pos (h1.trans h2), h1, h2]
        simp
      · have h3 : ¬ p = t := fun hpt => h2 (h1.symm.trans hpt)
        rw [if_pos h1, if_neg h2, if_neg h3, h1]
        simp
    · by_cases h3 : p = t
      · rw [if_neg h1, if_pos h3, if_pos h3, if_neg h1, h3]
        ring
      · rw [if_neg h1, if_neg h3, if_neg h3, if_neg h1]
        ring

theorem stealStep_sabotage (x : Int) (bl : Option Nat) (t : String) (f : String → ℚ)
    (i : Nat) (a : Attack) (ha : a.atype = AType.SABOTAGE) :
    stealStep x bl t f (i, a) = f := by
  unfold stealStep
  by_cases hbl : bl = some i
  · rw [if_pos hbl]
  · rw [if_neg hbl, if_pos (by simp [ha])]

theorem sabStep_steal (bl : Option Nat) (t : String) (f : String → ℚ)
    (i : Nat) (a : Attack) (ha : a.atype = AType.STEAL) :
    sabStep bl t f (i, a) = f := by
  unfold sabStep
  by_cases hbl : bl = some i
  · rw [if_pos hbl]
  · rw [if_neg hbl, if_pos (by simp [ha])]

theorem listSum_add_pointwise (l : List String) (f g1 g2 : String → ℚ) :
    (l.map (fun p => f p + g1 p - g2 p)).sum
      = (l.map f).sum + (l.map g1).sum - (l.map g2).sum := by
  induction l with
  | nil => simp
  | cons a rest ih =>
      simp only [List.map_cons, List.sum_cons, ih]
      ring

theorem listSum_ite_single (l : List String) (k : String) (x : ℚ)
    (hnd : l.Nodup) (hk : k ∈ l) :
    (l.map (fun p => if p = k then x else 0)).sum = x := by
  induction l with
  | nil => cases hk
  | cons a rest ih =>
      rcases List.mem_cons.mp hk with h | hmem
      · simp only [List.map_cons, List.sum_cons, if_pos h.symm]
        have hz : (rest.map (fun p => if p = k then x else 0)).sum = 0 := by
          apply List.sum_eq_zero
          intro y hy
          rcases List.mem_map.mp hy with ⟨p, hp, rfl⟩
          rw [if_neg]
          intro hpk
          exact (List.nodup_cons.mp hnd).1 (h ▸ (hpk ▸ hp))
        rw [hz, add_zero]
      · have hka : ¬ a = k := by
          rintro rfl
          exact (List.nodup_cons.mp hnd).1 hmem
        simp only [List.map_cons, List.sum_cons, if_neg hka]
        rw [ih (List.nodup_cons.mp hnd).2 hmem, zero_add]

theorem stealStep_sum (x : Int) (bl : Option Nat) (t : String) (f : String → ℚ)
    (i : Nat) (a : Attack) (l : List String) (hnd : l.Nodup) (ht : t ∈ l)
    (hfrom : a.fromPid ∈ l) (hx : 0 ≤ x) :
    (l.map (stealStep x bl t f (i, a))).sum = (l.map f).sum := by
  by_cases hbl : bl = some i
  · unfold stealStep
    rw [if_pos hbl]
  · by_cases ha : a.atype = AType.STEAL
    · have hpt := stealStep_unblocked x bl t f i a hx ha hbl
      rw [List.map_congr_left (fun p _ => hpt p), listSum_add_pointwise,
        listSum_ite_single l a.fromPid (x : ℚ) hnd hfrom,
        listSum_ite_single l t (x : ℚ) hnd ht]
      ring
    · have ha' : a.atype = AType.SABOTAGE := by
        cases hat : a.atype
        · exact absurd hat ha
        · rfl
      rw [stealStep_sabotage x bl t f i a ha']

theorem foldl_stealStep_sum (x : Int) (bl : Option Nat) (t : String)
    (l : List String) (hnd : l.Nodup) (ht : t ∈ l) (hx : 0 ≤ x) :
    ∀ (atks : List (Nat × Attack)) (f : String → ℚ),
      (∀ ia ∈ atks, (ia : Nat × Attack).2.fromPid ∈ l) →
      (l.map (atks.foldl (stealStep x bl t) f)).sum = (l.map f).sum := by
  intro atks
  induction atks with
  | nil => intro f _; rfl
  | cons ia rest ih =>
      intro f hmem
      rw [List.foldl_cons]
      rw [ih _ (fun b hb => hmem b (List.mem_cons_of_mem _ hb))]
      obtain ⟨i, a⟩ := ia
      exact stealStep_sum x bl t f i a l hnd ht
        (hmem (i, a) (List.mem_cons_self _ _)) hx

theorem attacksOn_from_mem (g : Game) (t : String) (a : Attack) :
    a ∈ attacksOn g t → a.fromPid ∈ playerIds g := by
  unfold attacksOn
  intro h
  rcases List.mem_flatten.mp h with ⟨sub, hsub, ha⟩
  rcases List.mem_map.mp hsub with ⟨fp, hfp, rfl⟩
  rcases List.mem_flatten.mp ha with ⟨sub2, hsub2, ha2⟩
  rcases List.mem_map.mp hsub2 with ⟨act, _, rfl⟩
  by_cases hc : act.targetPid = t
  · rw [if_pos hc] at ha2
    rcases List.mem_singleton.mp ha2 with rfl
    exact hfp
  · rw [if_neg hc] at ha2
    cases ha2

theorem enum_snd_mem {α : Type} (l : List α) (ia : Nat × α) (h : ia ∈ l.enum) :
    ia.2 ∈ l := by
  have hmem : ia.2 ∈ l.enum.map Prod.snd := List.mem_map_of_mem Prod.snd h
  rwa [List.enum_map_snd] at hmem

theorem applyStealsFor_sum (g : Game) (t : String) (f : String → ℚ)
    (hnd : (playerIds g).Nodup) (ht : t ∈ playerIds g) :
    listSum (playerIds g) (applyStealsFor g t f) = listSum (playerIds g) f := by
  unfold applyStealsFor listSum
  exact foldl_stealStep_sum _ _ _ _ hnd ht
    (maxTradBaseCardUsd_nonneg _ _ _ _) _ f
    (fun ia hia => attacksOn_from_mem g t ia.2 (enum_snd_mem _ ia hia))

theorem stealPhase_sum (g : Game) (hnd : (playerIds g).Nodup) (f : String → ℚ) :
    listSum (playerIds g) (stealPhase g f) = listSum (playerIds g) f := by
  unfold stealPhase
  suffices h : ∀ ts : List String, (∀ t ∈ ts, t ∈ playerIds g) → ∀ f : String → ℚ,
      listSum (playerIds g) (ts.foldl (fun f t => applyStealsFor g t f) f)
        = listSum (playerIds g) f by
    exact h (playerIds g) (fun _ ht => ht) f
  intro ts
  induction ts with
  | nil => intro _ f; rfl
  | cons t rest ih =>
      intro hmem f
      rw [List.foldl_cons,
        ih (fun u hu => hmem u (List.mem_cons_of_mem _ hu)),
        applyStealsFor_sum g t f hnd (hmem t (List.mem_cons_self _ _))]

/-- C3.  In the final audit computation the STEAL pass is zero-sum: the
sum of all players' running totals is unchanged by it; every unblocked
STEAL moves exactly `x` — the target's highest base-production card
value, which is never negative and equals the max over the target's
owned investment cards of `usdProduction × 1000` — from the target to
the attacker, leaving everyone else untouched; the whole computation
applies the STEAL pass before the SABOTAGE pass regardless of submission
order (the steal loop ignores SABOTAGE entries and vice versa). -/
theorem C3_steal_zero_sum :
    ∀ g : Game, (playerIds g).Nodup →
      (∀ f : String → ℚ,
        listSum (playerIds g) (stealPhase g f) = listSum (playerIds g) f) ∧
      computeAuditFinalUsd g = sabPhase g (stealPhase g (auditBaseUsd g)) ∧
      (∀ t, 0 ≤ (baseOf g t).maxTradBaseCardUsd ∧
        (baseOf g t).maxTradBaseCardUsd = specHighestCardUsd (invOf g t)) ∧
      (∀ (x : Int) (bl : Option Nat) (t : String) (f : String → ℚ) (i : Nat) (a : Attack),
        0 ≤ x → a.atype = AType.STEAL → bl ≠ some i →
        ∀ p, stealStep x bl t f (i, a) p
          = f p + (if p = a.fromPid then (x : ℚ) else 0)
              - (if p = t then (x : ℚ) else 0)) ∧
      (∀ (x : Int) (bl : Option Nat) (t : String) (f : String → ℚ) (i : Nat) (a : Attack),
        (a.atype = AType.SABOTAGE → stealStep x bl t f (i, a) = f) ∧
        (a.atype = AType.STEAL → sabStep bl t f (i, a) = f)) := by
  intro g hnd
  refine ⟨stealPhase_sum g hnd, rfl, ?_, stealStep_unblocked, ?_⟩
  · intro t
    exact ⟨maxTradBaseCardUsd_nonneg _ _ _ _, maxTradBaseCardUsd_eq_spec _ _ _ _⟩
  · intro x bl t f i a
    exact ⟨stealStep_sabotage x bl t f i a, sabStep_steal bl t f i a⟩

/-- Witness for C3 on `gC3w`: the steal pass preserves the sum of
totals there, and the unblocked steal step at A's highest card value
2000 transfers exactly 2000 from A to B. -/
theorem C3_steal_zero_sum_witness :
    listSum (playerIds gC3w) (stealPhase gC3w (auditBaseUsd gC3w))
      = listSum (playerIds gC3w) (auditBaseUsd gC3w) ∧
    ∀ p, stealStep 2000 none "A" (fun _ => (0 : ℚ)) (0, ⟨"B", AType.STEAL⟩) p
      = (fun _ => (0 : ℚ)) p + (if p = "B" then (2000 : ℚ) else 0)
          - (if p = "A" then (2000 : ℚ) else 0) :=
  ⟨(C3_steal_zero_sum gC3w (by decide)).1 (auditBaseUsd gC3w),
   (C3_steal_zero_sum gC3w (by decide)).2.2.2.1 2000 none "A" (fun _ => (0 : ℚ)) 0
     ⟨"B", AType.STEAL⟩ (by decide) rfl (by decide)⟩

/-! ## Claim C4: shield blocks the single most damaging attack -/

theorem attackDamage_nonneg (baseUsd : ℚ) (maxCard : Int) (hmc : 0 ≤ maxCard)
    (a : Attack) : 0 ≤ attackDamage baseUsd maxCard a := by
  obtain ⟨fp, ty⟩ := a
  cases ty
  · show (0 : ℚ) ≤ ((maxCard : Int) : ℚ)
    exact_mod_cast hmc
  · show (0 : ℚ) ≤ |baseUsd - ((⌊baseUsd * (1/2)⌋ : ℤ) : ℚ)|
    exact abs_nonneg _

theorem bestLoop_all_le (l : List ℚ) :
    ∀ (i0 : Nat) (bi : Int) (bd : ℚ),
      (∀ j (hj : j < l.length), l.get ⟨j, hj⟩ ≤ bd) → bestLoop l i0 bi bd = bi := by
  induction l with
  | nil => intro i0 bi bd _; rfl
  | cons d rest ih =>
      intro i0 bi bd hle
      unfold bestLoop
      have h0 : d ≤ bd := hle 0 (by simp)
      rw [if_neg (not_lt.mpr h0)]
      exact ih (i0 + 1) bi bd (fun j hj => hle (j + 1) (by simpa using Nat.succ_lt_succ hj))

theorem bestLoop_max (l : List ℚ) :
    ∀ (i0 : Nat) (bi : Int) (bd : ℚ),
      (∃ j, ∃ hj : j < l.length, bd < l.get ⟨j, hj⟩) →
      ∃ j, ∃ hj : j < l.length, bestLoop l i0 bi bd = Int.ofNat (i0 + j) ∧
        bd < l.get ⟨j, hj⟩ ∧
        ∀ k (hk : k < l.length), l.get ⟨k, hk⟩ ≤ l.get ⟨j, hj⟩ := by
  induction l with
  | nil =>
      rintro i0 bi bd ⟨j, hj, _⟩
      exact absurd hj (by simp)
  | cons d rest ih =>
      intro i0 bi bd hex0
      unfold bestLoop
      by_cases hd : bd < d
      · rw [if_pos hd]
        by_cases hrest : ∃ j, ∃ hj : j < rest.length, d < rest.get ⟨j, hj⟩
        · rcases ih (i0 + 1) (Int.ofNat i0) d hrest with ⟨j, hj, hb, hlt, hmax⟩
          refine ⟨j + 1, by simpa using Nat.succ_lt_succ hj, ?_, ?_, ?_⟩
          · rw [hb]
            congr 1
            omega
          · exact lt_trans hd hlt
          · intro k hk
            cases k with
            | zero => exact le_of_lt hlt
            | succ k' => exact hmax k' (by simpa using hk)
        · push_neg at hrest
          rw [bestLoop_all_le rest (i0 + 1) (Int.ofNat i0) d hrest]
          refine ⟨0, by simp, ?_, hd, ?_⟩
          · congr 1
          · intro k hk
            cases k with
            | zero => exact le_refl d
            | succ k' => exact hrest k' (by simpa using hk)
      · rw [if_neg hd]
        have hex' : ∃ j, ∃ hj : j < rest.length, bd < rest.get ⟨j, hj⟩ := by
          rcases hex0 with ⟨j, hj, hlt⟩
          cases j with
          | zero => exact absurd hlt hd
          | succ j' => exact ⟨j', by simpa using hj, hlt⟩
        rcases ih (i0 + 1) bi bd hex' with ⟨j, hj, hb, hlt, hmax⟩
        refine ⟨j + 1, by simpa using Nat.succ_lt_succ hj, ?_, hlt, ?_⟩
        · rw [hb]
          congr 1
          omega
        · intro k hk
          cases k with
          | zero => exact le_trans (not_lt.mp hd) (le_of_lt hlt)
          | succ k' => exact hmax k' (by simpa using hk)

/-- C4.  A target whose locked-in lawyer choice is the shield, with at
least one incoming attack, blocks exactly one attack: `blockedAttack`
selects an index whose damage estimate (the reduction the attack would
cause to the target's base total: highest card value for a STEAL,
`|base − floor(base·0.5)|` for a SABOTAGE) is maximal among all incoming
attacks; with no incoming attacks, or without the shield choice, nothing
is blocked; and both attack loops skip only the blocked index — at every
other index they behave exactly as with no block. -/
theorem C4_shield_blocks_max :
    ∀ (g : Game) (t : String),
      ((pendOf g t).lawyer = some LawyerChoice.SHIELD_LOBBY →
        attacksOn g t ≠ [] →
        ∃ i, ∃ hi : i < (attacksOn g t).length,
          blockedIdxOf g t = some i ∧
          ∀ j (hj : j < (attacksOn g t).length), damageAt g t j hj ≤ damageAt g t i hi) ∧
      ((pendOf g t).lawyer = some LawyerChoice.SHIELD_LOBBY →
        attacksOn g t = [] → blockedIdxOf g t = none) ∧
      ((pendOf g t).lawyer ≠ some LawyerChoice.SHIELD_LOBBY →
        blockedIdxOf g t = none) ∧
      (∀ (i j : Nat) (x : Int) (f : String → ℚ) (a : Attack), j ≠ i →
        stealStep x (some i) t f (j, a) = stealStep x none t f (j, a) ∧
        sabStep (some i) t f (j, a) = sabStep none t f (j, a)) := by
  intro g t
  refine ⟨?_, ?_, ?_, ?_⟩
  · intro hsh hne
    have hmc : 0 ≤ (baseOf g t).maxTradBaseCardUsd := maxTradBaseCardUsd_nonneg _ _ _ _
    have hnonneg : ∀ j (hj : j < (damagesOn g t).length),
        (0 : ℚ) ≤ (damagesOn g t).get ⟨j, hj⟩ := by
      intro j hj
      unfold damagesOn
      rw [List.get_map]
      exact attackDamage_nonneg _ _ hmc _
    have hlen : (damagesOn g t).length = (attacksOn g t).length := by
      unfold damagesOn
      exact List.length_map _ _
    have hlen0 : 0 < (damagesOn g t).length := by
      rw [hlen]
      exact List.length_pos.mpr hne
    have hex : ∃ j, ∃ hj : j < (damagesOn g t).length,
        (-1 : ℚ) < (damagesOn g t).get ⟨j, hj⟩ := by
      exact ⟨0, hlen0, lt_of_lt_of_le (by norm_num) (hnonneg 0 hlen0)⟩
    rcases bestLoop_max (damagesOn g t) 0 (-1) (-1) hex with ⟨j, hj, hb, _, hmax⟩
    have hb' : bestAttack (damagesOn g t) = Int.ofNat j := by
      unfold bestAttack
      rw [hb]
      congr 1
      omega
    refine ⟨j, by rwa [hlen] at hj, ?_, ?_⟩
    · unfold blockedIdxOf
      rw [if_pos hsh, if_neg hne, hb']
      rw [if_pos (by exact Int.ofNat_nonneg j)]
      rfl
    · intro k hk
      have hk' : k < (damagesOn g t).length := by rwa [hlen]
      have := hmax k hk'
      unfold damagesOn at this
      rw [List.get_map, List.get_map] at this
      exact this
  · intro hsh hempty
    unfold blockedIdxOf
    rw [if_pos hsh, if_pos hempty]
  · intro hsh
    unfold blockedIdxOf
    rw [if_neg hsh]
  · intro i j x f a hij
    constructor
    · unfold stealStep
      rw [if_neg (fun hh => hij (Option.some.inj hh).symm),
        if_neg (fun hh => Option.noConfusion hh)]
    · unfold sabStep
      rw [if_neg (fun hh => hij (Option.some.inj hh).symm),
        if_neg (fun hh => Option.noConfusion hh)]

/-- Witness for C4 on `gC4w`: shield holder A with two incoming steals
blocks exactly one maximal-damage attack, and B (no shield) blocks
nothing. -/
theorem C4_shield_blocks_max_witness :
    (∃ i, ∃ hi : i < (attacksOn gC4w "A").length,
      blockedIdxOf gC4w "A" = some i ∧
      ∀ j (hj : j < (attacksOn gC4w "A").length),
        damageAt gC4w "A" j hj ≤ damageAt gC4w "A" i hi) ∧
    blockedIdxOf gC4w "B" = none :=
  ⟨(C4_shield_blocks_max gC4w "A").1 (by decide) (by decide),
   (C4_shield_blocks_max gC4w "B").2.2.1 (by decide)⟩

end Kryptopoly
